import Mathlib

/-!
# BioFabric-rs core: a shallow embedding with verified claims

This file embeds the data model and the operations of the BioFabric-rs core
crate (`crates/core`) in Lean and proves or refutes a fixed list of claims
about them.  Rust types are translated as follows: `String` becomes `String`,
`usize` becomes `Nat` (with the `usize::MAX` sentinel kept as an explicit
constant and wrapping subtraction made explicit where the source relies on
it), `Vec<T>` and insertion-ordered maps/sets (`IndexMap`, `IndexSet`)
become lists, `Option<T>` becomes `Option T`, and `Result<T, String>`
becomes `Except String T`.  `HashMap`/`HashSet` have unspecified iteration
order in Rust; wherever the source iterates one, the embedding fixes
insertion order and the properties proved below do not depend on that
choice.
-/

namespace BioFabric

/-- Node identifier: a wrapper around a string (`model/node.rs`,
`NodeId(pub String)`); equality and ordering are lexicographic. -/
abbrev NodeId := String

/-- Modelled from the spec: the core crate's `model/link.rs` is declared in
`model/mod.rs` but absent from the tree.  Per spec §3, a Link is
`{ source, target, relation, directed: tri-state, is_shadow: bool }`. -/
structure Link where
  source : NodeId
  target : NodeId
  relation : String
  directed : Option Bool
  is_shadow : Bool
deriving DecidableEq

/-- `Link::new`: fresh link, direction undetermined, not a shadow. -/
def Link.new (source target relation : String) : Link :=
  ⟨source, target, relation, none, false⟩

/-- `Link::with_shadow`. -/
def Link.with_shadow (source target relation : String) (is_shadow : Bool) : Link :=
  ⟨source, target, relation, none, is_shadow⟩

/-- `Link::is_feedback`: a self-loop. -/
def Link.is_feedback (l : Link) : Bool :=
  l.source == l.target

/-- Modelled from the spec: `Link::to_shadow` of the missing core
`model/link.rs`.  Spec §4.1: "For every real link whose endpoints differ,
append one shadow link with the same relation, directedness, and endpoints
swapped, flagged `is_shadow`"; "self-loops never have shadows".  Callers
(`Network::generate_shadows`, the SIF parser) treat the result as an
`Option`, absent exactly for self-loops. -/
def Link.to_shadow (l : Link) : Option Link :=
  if l.source = l.target then none
  else some ⟨l.target, l.source, l.relation, l.directed, true⟩

/-- Modelled from the spec: the core crate's `model/node.rs` is declared in
`model/mod.rs` but absent from the tree.  Per spec §3, a Node is
`{ id: NodeId, attributes: map<string,string> }`. -/
structure Node where
  id : NodeId
  attributes : List (String × String)
deriving DecidableEq

/-- `Node::new`: a node with no attributes. -/
def Node.new (id : NodeId) : Node :=
  ⟨id, []⟩

/-- `NetworkMetadata` (`model/network.rs`). -/
structure NetworkMetadata where
  is_directed : Bool
  is_bipartite : Option Bool
  is_dag : Option Bool
  name : Option String
  description : Option String
deriving DecidableEq

/-- `NetworkMetadata::default()`. -/
def NetworkMetadata.init : NetworkMetadata :=
  ⟨false, none, none, none, none⟩

/-- `AdjacencyIndex` (`model/network.rs`): link indices per node id plus a
validity flag.  The `IndexMap` becomes an insertion-ordered association
list. -/
structure AdjacencyIndex where
  by_node : List (NodeId × List Nat)
  is_built : Bool
deriving DecidableEq

/-- `AdjacencyIndex::default()`. -/
def AdjacencyIndex.init : AdjacencyIndex :=
  ⟨[], false⟩

/-- `Network` (`model/network.rs`): insertion-ordered nodes, the link list,
the lone-node set, metadata, and the (unserialized) adjacency index. -/
structure Network where
  nodes : List Node
  links : List Link
  lone_nodes : List NodeId
  metadata : NetworkMetadata
  adjacency : AdjacencyIndex
deriving DecidableEq

/-- `Network::new()` / `Network::with_capacity` (capacity is irrelevant to
the contents). -/
def Network.init : Network :=
  ⟨[], [], [], .init, .init⟩

/-- Insertion into an insertion-ordered set (`IndexSet::insert`): no-op when
present, append otherwise. -/
def insertOnce {α : Type} [BEq α] (xs : List α) (x : α) : List α :=
  if xs.contains x then xs else xs ++ [x]

/-- The node-id key sequence of the node map (`self.nodes.keys()`). -/
def Network.node_ids (net : Network) : List NodeId :=
  net.nodes.map (fun n => n.id)

/-- `Network::node_count`. -/
def Network.node_count (net : Network) : Nat :=
  net.nodes.length

/-- `Network::contains_node`. -/
def Network.contains_node (net : Network) (id : NodeId) : Bool :=
  net.node_ids.contains id

/-- `Network::get_node`. -/
def Network.get_node (net : Network) (id : NodeId) : Option Node :=
  net.nodes.find? (fun n => n.id == id)

/-- `Network::add_node`: `entry(id).or_insert(node)` — no-op when the id is
already present. -/
def Network.add_node (net : Network) (node : Node) : Network :=
  if net.node_ids.contains node.id then net
  else { net with nodes := net.nodes ++ [node] }

/-- `Network::add_node_by_id`: `entry(id).or_insert_with(|| Node::new(id))`. -/
def Network.add_node_by_id (net : Network) (id : NodeId) : Network :=
  net.add_node (Node.new id)

/-- `Network::add_lone_node`. -/
def Network.add_lone_node (net : Network) (id : NodeId) : Network :=
  let n := net.add_node_by_id id
  { n with lone_nodes := insertOnce n.lone_nodes id }

/-- `Network::invalidate_adjacency`: clears the map and the flag. -/
def Network.invalidate_adjacency (net : Network) : Network :=
  { net with adjacency := ⟨[], false⟩ }

/-- `Network::add_link`: ensure both endpoints exist, drop them from the
lone-node set (`shift_remove` keeps the order of the rest), invalidate the
adjacency index, push the link. -/
def Network.add_link (net : Network) (link : Link) : Network :=
  let n1 := net.add_node_by_id link.source
  let n2 := n1.add_node_by_id link.target
  let n3 := { n2 with
    lone_nodes := (n2.lone_nodes.filter (fun x => x != link.source)).filter
      (fun x => x != link.target) }
  let n4 := n3.invalidate_adjacency
  { n4 with links := n4.links ++ [link] }

/-- `Network::link_count`. -/
def Network.link_count (net : Network) : Nat :=
  net.links.length

/-- `Network::adjacency_indices_for`: the index entry when the index is
built. -/
def Network.adjacency_indices_for (net : Network) (id : NodeId) : Option (List Nat) :=
  if net.adjacency.is_built then
    (net.adjacency.by_node.find? (fun p => p.1 == id)).map (fun p => p.2)
  else none

/-- `Network::links_for_node`: indexed path when available, otherwise the
linear scan.  The source indexes `self.links[i]`; the rebuilt index stores
only in-range indices (proved below), so `get?` retrieval is exact. -/
def Network.links_for_node (net : Network) (id : NodeId) : List Link :=
  match net.adjacency_indices_for id with
  | some idx => idx.filterMap (fun i => net.links[i]?)
  | none => net.links.filter (fun l => l.source == id || l.target == id)

/-- `Network::degree`. -/
def Network.degree (net : Network) (id : NodeId) : Nat :=
  match net.adjacency_indices_for id with
  | some idx => idx.length
  | none => (net.links.filter (fun l => l.source == id || l.target == id)).length

/-- The closure both `neighbors` paths filter-map over a link. -/
def neighborStep (id : NodeId) (l : Link) : Option NodeId :=
  if l.source == id then some l.target
  else if l.target == id then some l.source
  else none

/-- `Network::neighbors`: the `HashSet` result becomes a `Finset`. -/
def Network.neighbors (net : Network) (id : NodeId) : Finset NodeId :=
  match net.adjacency_indices_for id with
  | some idx => (idx.filterMap (fun i => (net.links[i]?).bind (neighborStep id))).toFinset
  | none => (net.links.filterMap (neighborStep id)).toFinset

/-- `Network::generate_shadows`: collect a shadow for every non-shadow link
(`to_shadow` skips self-loops), push them all, invalidate the adjacency
index when any were added; returns the updated network and the count. -/
def Network.generate_shadows (net : Network) : Network × Nat :=
  let shadows := (net.links.filter (fun l => !l.is_shadow)).filterMap Link.to_shadow
  let count := shadows.length
  let n1 := { net with links := net.links ++ shadows }
  (if count > 0 then n1.invalidate_adjacency else n1, count)

/-- `Network::has_shadows`. -/
def Network.has_shadows (net : Network) : Bool :=
  net.links.any (fun l => l.is_shadow)

/-- `Network::shadow_count`. -/
def Network.shadow_count (net : Network) : Nat :=
  (net.links.filter (fun l => l.is_shadow)).length

/-- `Network::regular_link_count`. -/
def Network.regular_link_count (net : Network) : Nat :=
  (net.links.filter (fun l => !l.is_shadow)).length

/-- `IndexMap::entry(k).or_default().push(i)`: append `i` to `k`'s entry,
creating the entry at the end when absent. -/
def pushIndex (m : List (NodeId × List Nat)) (k : NodeId) (i : Nat) :
    List (NodeId × List Nat) :=
  if m.any (fun p => p.1 == k) then
    m.map (fun p => if p.1 == k then (p.1, p.2 ++ [i]) else p)
  else m ++ [(k, [i])]

/-- The indexed loop of `rebuild_adjacency_index`: for link `i`, push `i`
onto the source's entry, and onto the target's too unless it is a
self-loop. -/
def rebuildFold : List (NodeId × List Nat) → Nat → List Link → List (NodeId × List Nat)
  | m, _, [] => m
  | m, i, l :: rest =>
    let m1 := pushIndex m l.source i
    let m2 := if l.source == l.target then m1 else pushIndex m1 l.target i
    rebuildFold m2 (i + 1) rest

/-- `Network::rebuild_adjacency_index`: pre-populate every node key with an
empty list, then run the indexed loop over the links, and mark the index
built. -/
def Network.rebuild_adjacency_index (net : Network) : Network :=
  let m0 := net.node_ids.foldl
    (fun m id => if m.any (fun p => p.1 == id) then m else m ++ [(id, [])]) []
  { net with adjacency := ⟨rebuildFold m0 0 net.links, true⟩ }

/-- Specification of the adjacency-index contents: the (ascending) indices,
starting at `i`, of the links incident to `k`. -/
def incFrom (k : NodeId) : Nat → List Link → List Nat
  | _, [] => []
  | i, l :: rest =>
    (if l.source == k || l.target == k then [i] else []) ++ incFrom k (i + 1) rest

/-- The current value of a key in an association-list map, empty when
absent. -/
def idxVal (m : List (NodeId × List Nat)) (k : NodeId) : List Nat :=
  ((m.find? (fun p => p.1 == k)).map (fun p => p.2)).getD []

/-- `Network::extract_subnetwork`: copy the requested nodes that exist,
copy the links with both endpoints requested (pushed directly, bypassing
`add_link`), propagate metadata with a renamed `name`.  The `HashSet`
argument becomes a list; the source only iterates it for node copying and
otherwise tests membership. -/
def Network.extract_subnetwork (net : Network) (node_ids : List NodeId) : Network :=
  let sub1 := node_ids.foldl
    (fun sub id =>
      match net.get_node id with
      | some node => sub.add_node node
      | none => sub)
    Network.init
  let sub2 := { sub1 with
    links := sub1.links ++ net.links.filter
      (fun (l : Link) => node_ids.contains l.source && node_ids.contains l.target) }
  { sub2 with metadata := { net.metadata with
      name := net.metadata.name.map (fun n => n ++ " (subnetwork)") } }

/-- The directed non-shadow edges `detect_dag` runs Kahn's algorithm over
(the source tests `link.directed == Some(true) && !link.is_shadow` inline
in both of its loops). -/
def Network.dir_edges (net : Network) : List Link :=
  net.links.filter (fun (l : Link) => l.directed == some true && !l.is_shadow)

/-- `usize` is 64-bit here; `*deg -= 1` in release mode wraps modulo
`2^64`, made explicit below. -/
def usizeSize : Nat := 2 ^ 64

/-- Wrapping decrement on `usize`. -/
def wrap_dec (n : Nat) : Nat := (n + (usizeSize - 1)) % usizeSize

/-- In-degree of `v` over an edge list (the `in_degree` map contents after
the initialization loop of `detect_dag`). -/
def indeg (E : List Link) (v : NodeId) : Nat :=
  (E.filter (fun l => l.target == v)).length

/-- One link of `detect_dag`'s inner loop for popped node `u`: when the
link leaves `u`, decrement the target's degree and enqueue the target if
the degree reached zero. -/
def kahnEdgeStep (u : NodeId) (acc : (NodeId → Nat) × List NodeId)
    (l : Link) : (NodeId → Nat) × List NodeId :=
  if l.source == u then
    let d := wrap_dec (acc.1 l.target)
    (Function.update acc.1 l.target d,
      acc.2 ++ if d = 0 then [l.target] else [])
  else acc

/-- The inner loop of `detect_dag` for one popped node `u`: decrement each
out-neighbour's degree in link order and collect, in order, the targets
whose degree reaches zero. -/
def kahnStep (E : List Link) (u : NodeId) (deg : NodeId → Nat) :
    (NodeId → Nat) × List NodeId :=
  E.foldl (kahnEdgeStep u) (deg, [])

/-- The queue loop of `detect_dag`, returning the popped nodes in pop order
(the source counts pops; the count is the length of this list).  The fuel
only bounds the recursion; it is chosen large enough that the loop always
drains the queue first (proved below for well-formed networks). -/
def kahnLoop (E : List Link) : Nat → List NodeId → (NodeId → Nat) → List NodeId
  | 0, _, _ => []
  | _ + 1, [], _ => []
  | fuel + 1, u :: qs, deg =>
    let s := kahnStep E u deg
    u :: kahnLoop E fuel (qs ++ s.2) s.1

/-- The nodes consumed by the Kahn run of `detect_dag`: seed with the
zero-in-degree nodes, then drain.  Rust iterates the seed `HashMap` in
unspecified order; the embedding fixes node insertion order (the consumed
node set is independent of that order). -/
def Network.kahn_popped (net : Network) : List NodeId :=
  let E := net.dir_edges
  let seeds := net.node_ids.filter (fun v => indeg E v == 0)
  kahnLoop E (net.nodes.length + net.links.length + 1) seeds (indeg E)

/-- `visited == self.nodes.len()` at the end of `detect_dag`'s Kahn run. -/
def Network.kahn_consumes_all (net : Network) : Bool :=
  net.kahn_popped.length == net.nodes.length

/-- `Network::detect_dag`: answer `false` outright for a network whose
metadata is not flagged directed; otherwise run Kahn's algorithm and test
whether every node was consumed.  Returns the updated network (the
`is_dag` metadata write) together with the boolean result. -/
def Network.detect_dag (net : Network) : Network × Bool :=
  if !net.metadata.is_directed then
    ({ net with metadata := { net.metadata with is_dag := some false } }, false)
  else
    let b := net.kahn_consumes_all
    ({ net with metadata := { net.metadata with is_dag := some b } }, b)

/-- Declarative Kahn-consumability over an edge list: a node is eventually
popped exactly when every one of its in-edges comes from a node that is
itself eventually popped (the accessibility characterization of the nodes
a Kahn run consumes). -/
inductive Consumable (E : List Link) : NodeId → Prop where
  | mk (v : NodeId)
      (h : ∀ l ∈ E, l.target = v → Consumable E l.source) : Consumable E v

/-- The in-degree of `v` counting only edges whose source is not yet in
the popped list `P` (the contents of `in_degree` mid-run). -/
def degAfter (E : List Link) (P : List NodeId) (v : NodeId) : Nat :=
  (E.filter (fun l => l.target == v && !(decide (l.source ∈ P)))).length

/-- The number of `u → v` edges of `F`. -/
def cnt_uv (F : List Link) (u v : NodeId) : Nat :=
  (F.filter (fun l => l.source == u && l.target == v)).length

/-- A one-node, link-free network; its metadata keeps the default
`is_directed = false`. -/
def exNetA : Network := Network.init.add_node_by_id "A"

/-- A two-node network with the single directed link `A → B` and metadata
flagged directed. -/
def exNetDagAB : Network :=
  let n := Network.init.add_link ⟨"A", "B", "pp", some true, false⟩
  { n with metadata := { n.metadata with is_directed := true } }

/-- `SelectionState` (`model/selection.rs`): insertion-ordered node-id and
link-index sets. -/
structure SelectionState where
  nodes : List NodeId
  links : List Nat
deriving DecidableEq

/-- `SelectionState::clear`. -/
def SelectionState.clear (_s : SelectionState) : SelectionState :=
  ⟨[], []⟩

/-- `SelectionState::select_node`: clear, then insert the one node. -/
def SelectionState.select_node (s : SelectionState) (id : NodeId) : SelectionState :=
  let c := s.clear
  { c with nodes := insertOnce c.nodes id }

/-- `SelectionState::add_node`. -/
def SelectionState.add_node (s : SelectionState) (id : NodeId) : SelectionState :=
  { s with nodes := insertOnce s.nodes id }

/-- Drop leading and trailing whitespace (`str::trim`), over the character
list of a string.  The library's `String.trim` (and the other iterator-based
`String` primitives) are avoided throughout so that every operation stays
kernel-reducible; `String.data` exposes the same character sequence. -/
def trimChars (cs : List Char) : List Char :=
  ((cs.dropWhile Char.isWhitespace).reverse.dropWhile Char.isWhitespace).reverse

/-- `str::trim` on a string. -/
def strTrim (s : String) : String :=
  ⟨trimChars s.data⟩

/-- Split a character list at every separator position (separators given by
the predicate); empty runs are kept, as with Rust's `split`. -/
def splitOnPred (p : Char → Bool) (cs : List Char) : List (List Char) :=
  cs.foldr
    (fun c acc =>
      match acc with
      | [] => [[]]
      | t :: ts => if p c then [] :: t :: ts else (c :: t) :: ts)
    [[]]

/-- Rust `split('\t')`: empty tokens are kept. -/
def splitTab (s : String) : List String :=
  (splitOnPred (fun c => c == '\t') s.data).map (fun cs => ⟨cs⟩)

/-- Rust `split_whitespace()`: split on whitespace, no empty tokens. -/
def splitWs (s : String) : List String :=
  ((splitOnPred Char.isWhitespace s.data).filter (fun cs => !cs.isEmpty)).map
    (fun cs => ⟨cs⟩)

/-- The double-quote character. -/
def quoteChar : Char := Char.ofNat 34

/-- The single-quote character. -/
def apostropheChar : Char := Char.ofNat 39

/-- `strip_quotes` (`io/sif.rs`): trim, then strip one matching pair of
surrounding double or single quotes.  (On the one-character string
consisting of a lone quote the Rust byte slice `&s[1..len-1]` panics; the
embedding yields the empty string there — no claim depends on that
corner.) -/
def strip_quotes (s : String) : String :=
  let cs := trimChars s.data
  let quoted :=
    match cs.head?, cs.getLast? with
    | some a, some b =>
      (a == quoteChar && b == quoteChar)
        || (a == apostropheChar && b == apostropheChar)
    | _, _ => false
  if quoted then ⟨(cs.drop 1).dropLast⟩ else ⟨cs⟩

/-- The tokenizer of `parse_reader_with_stats`: split by tab when a tab is
present, else by whitespace. -/
def sif_tokens (trimmed : String) : List String :=
  if trimmed.data.contains '\t' then splitTab trimmed else splitWs trimmed

/-- Modelled from the spec: `ImportStats` lives in the missing `io/mod.rs`;
its fields are those the SIF parser populates (spec §7: parsers record
"bad lines" in stats). -/
structure ImportStats where
  node_count : Nat
  link_count : Nat
  lone_node_count : Nat
  shadow_link_count : Nat
  bad_lines : List String
deriving DecidableEq

/-- `ImportStats::new()`. -/
def ImportStats.new : ImportStats :=
  ⟨0, 0, 0, 0, []⟩

/-- One line of the SIF parsing loop (`parse_reader_with_stats`): skip blank
lines; a 3-token line adds the link and, when it is not a self-loop, its
shadow right after it; a 1-token line records a lone-node name; anything
else is a bad line. -/
def sifStep (acc : ImportStats × List Link × List String) (line : String) :
    ImportStats × List Link × List String :=
  let stats := acc.1
  let links := acc.2.1
  let lone := acc.2.2
  let trimmed := strTrim line
  if trimmed.data.isEmpty then acc
  else
    match sif_tokens trimmed with
    | [t0, t1, t2] =>
      let source := strip_quotes t0
      let relation := strip_quotes t1
      let target := strip_quotes t2
      let link := Link.new source target relation
      let links1 := links ++ [link]
      let stats1 := { stats with link_count := stats.link_count + 1 }
      if !link.is_feedback then
        match link.to_shadow with
        | some shadow =>
          ({ stats1 with shadow_link_count := stats1.shadow_link_count + 1 },
            links1 ++ [shadow], lone)
        | none => (stats1, links1, lone)
      else (stats1, links1, lone)
    | [t0] => (stats, links, lone ++ [strip_quotes t0])
    | _ => ({ stats with bad_lines := stats.bad_lines ++ [trimmed.data.asString] },
        links, lone)

/-- `parse_reader_with_stats` over the list of input lines: run the line
loop, then build the network (links first, in order, then lone nodes) and
fill in the node counts.  I/O errors cannot arise on an in-memory line
list, so the `Result` wrapper is dropped. -/
def parse_lines_with_stats (lines : List String) : Network × ImportStats :=
  let acc := lines.foldl sifStep (ImportStats.new, [], [])
  let stats := acc.1
  let links := acc.2.1
  let lone := acc.2.2
  let network0 := links.foldl Network.add_link Network.init
  let network1 := lone.foldl Network.add_lone_node network0
  let stats1 := { stats with
    node_count := network1.node_count,
    lone_node_count := network1.lone_nodes.length }
  (network1, stats1)

/-- Specification of the links one SIF line contributes: for a 3-token
line the real link followed by its shadow (absent for a self-loop);
nothing otherwise. -/
def sif_line_links (line : String) : List Link :=
  match sif_tokens (strTrim line) with
  | [t0, t1, t2] =>
    let link := Link.new (strip_quotes t0) (strip_quotes t2) (strip_quotes t1)
    link :: (if !link.is_feedback then link.to_shadow.toList else [])
  | _ => []

/-- Specification of the lone-node names one SIF line contributes. -/
def sif_line_lone (line : String) : List NodeId :=
  match sif_tokens (strTrim line) with
  | [t0] => [strip_quotes t0]
  | _ => []

/-- A one-edge SIF input. -/
def exSifLines : List String := ["A\tpp\tB"]

/-- The number of real (non-shadow) non-self-loop links of a network — the
count of links that receive a shadow in one `generate_shadows` pass. -/
def Network.real_non_self_count (net : Network) : Nat :=
  (net.links.filter (fun l => !l.is_shadow && l.source != l.target)).length

/-- A one-link network `A —pp— B`. -/
def exNetAB : Network :=
  Network.init.add_link (Link.new "A" "B" "pp")

/-- A network with a real link `A —pp— B` and a self-loop `A —self— A`. -/
def exNetABself : Network :=
  (Network.init.add_link (Link.new "A" "B" "pp")).add_link (Link.new "A" "A" "self")

/-- Byte-lexicographic strict order on character lists (the order of Rust's
`String: Ord`; on the ASCII names used throughout, character order and byte
order coincide).  Implemented directly because the library's iterator-based
`String` order does not kernel-reduce. -/
def charListLt : List Char → List Char → Bool
  | [], [] => false
  | [], _ :: _ => true
  | _ :: _, [] => false
  | a :: as, b :: bs => if a < b then true else if a == b then charListLt as bs else false

/-- Rust `<` on strings (`NodeId: Ord`). -/
def strLt (a b : String) : Bool := charListLt a.data b.data

/-- Rust `<=` on strings. -/
def strLe (a b : String) : Bool := strLt a b || a == b

/-- Insert into a sorted list (helper for `sort()`). -/
def insertSorted (x : NodeId) : List NodeId → List NodeId
  | [] => [x]
  | y :: ys => if strLe x y then x :: y :: ys else y :: insertSorted x ys

/-- `Vec::sort()` on node ids: insertion sort by the Rust string order. -/
def sortIds (xs : List NodeId) : List NodeId :=
  xs.foldr insertSorted []

/-- `HashSet`-style deduplication of a key list. -/
def dedupKeys (xs : List NodeId) : List NodeId :=
  xs.foldl insertOnce []

/-- `HashMap::insert` on an association list: the new entry shadows any old
one for the same key. -/
def insertKV (m : List (NodeId × NodeId)) (k v : NodeId) : List (NodeId × NodeId) :=
  (k, v) :: m.filter (fun p => p.1 != k)

/-- `HashMap::get` on an association list. -/
def lookupKV (m : List (NodeId × NodeId)) (k : NodeId) : Option NodeId :=
  (m.find? (fun q => q.1 == k)).map (fun q => q.2)

/-- `perfect.iter().map(|(g1,g2)| (g2,g1)).collect()` — the inverse map of
the perfect alignment (`cycle.rs`).  Rust iterates the `HashMap` in
unspecified order; the embedding fixes list order (the two differ only when
the perfect alignment is non-injective). -/
def invertMap (p : List (NodeId × NodeId)) : List (NodeId × NodeId) :=
  p.foldl (fun m q => insertKV m q.2 q.1) []

/-- The merged display name `format!("{}::{}", g1, g2)` used by `cycle.rs`
and by `MergedNodeId::to_node_id`. -/
def mergedPairName (g1 g2 : NodeId) : String := g1 ++ "::" ++ g2

/-- The blue display name `format!("{}::", g1)`. -/
def blueName (g1 : NodeId) : String := g1 ++ "::"

/-- The red display name `format!("::{}", g2)`. -/
def redName (g2 : NodeId) : String := "::" ++ g2

/-- `CycleCase` (`alignment/cycle.rs`): the 9 canonical alignment cases. -/
inductive CycleCase where
  | CorrectlyUnalignedBlue
  | CorrectlyUnalignedRed
  | CorrectSingleton
  | IncorrectSingleton
  | PathRedBlue
  | PathRedPurple
  | PathPurpleBlue
  | PathRedPurpleBlue
  | IncorrectCycle
deriving DecidableEq

/-- `CycleCase::index`: zero-based case index. -/
def CycleCase.index : CycleCase → Nat
  | .CorrectlyUnalignedBlue => 0
  | .CorrectlyUnalignedRed => 1
  | .CorrectSingleton => 2
  | .IncorrectSingleton => 3
  | .PathRedBlue => 4
  | .PathRedPurple => 5
  | .PathPurpleBlue => 6
  | .PathRedPurpleBlue => 7
  | .IncorrectCycle => 8

/-- `AlignmentCyclePath`: one detected cycle or path. -/
structure AlignmentCyclePath where
  case : CycleCase
  nodes : List NodeId
deriving DecidableEq

/-- `AlignmentCycles`: all entries plus the count per case
(`case_counts: [usize; 9]` becomes a 9-element list). -/
structure AlignmentCycles where
  entries : List AlignmentCyclePath
  case_counts : List Nat
deriving DecidableEq

/-- `case_counts[i] += 1`. -/
def bumpAt : List Nat → Nat → List Nat
  | [], _ => []
  | n :: rest, 0 => (n + 1) :: rest
  | n :: rest, i + 1 => n :: bumpAt rest i

/-- The chain-tracing loop of `AlignmentCycles::detect` (`cycle.rs:278-309`):
follow `G1 → G2 → perfect_inverse → …` until hitting a visited G1 node
(a cycle when it is the start and the chain is non-empty), an unaligned G1
node, or a missing `perfect_inverse` entry.  Each iteration inserts a fresh
node into `visited_g1`, so a fuel of `|alignment| + |perfect| + 1` can never
be exhausted; returns the updated visited sets, the chain, and the
`is_cycle` flag. -/
def chase (alignment perfect_inv : List (NodeId × NodeId)) (g1_start : NodeId) :
    Nat → NodeId → List NodeId → List NodeId → List NodeId → List NodeId →
      List NodeId × List NodeId × List NodeId × Bool
  | 0, _, vg1, vg2, chain, _ => (vg1, vg2, chain, false)
  | fuel + 1, curr, vg1, vg2, chain, chain_g1 =>
    if vg1.contains curr then
      (vg1, vg2, chain, decide (curr = g1_start) && !chain_g1.isEmpty)
    else
      let vg1' := insertOnce vg1 curr
      match lookupKV alignment curr with
      | none => (vg1', vg2, chain, false)
      | some g2 =>
        let chain_g1' := chain_g1 ++ [curr]
        let vg2' := insertOnce vg2 g2
        let chain' := chain ++ [mergedPairName curr g2]
        match lookupKV perfect_inv g2 with
        | none => (vg1', vg2', chain', false)
        | some next =>
          chase alignment perfect_inv g1_start fuel next vg1' vg2' chain' chain_g1'

/-- The per-start-node body of the main loop of `AlignmentCycles::detect`
(`cycle.rs:243-381`), threading `(entries, case_counts, visited_g1,
visited_g2)`.  The classification for a traced chain follows the source
exactly: empty chain — nothing; single non-cycle node — case 4; cycle —
case 9; and the placeholder branch that labels every remaining multi-node
path as case 9 as well (the dead local `case` binding of the source is
dropped). -/
def detectStep (alignment : List (NodeId × NodeId))
    (perfect : Option (List (NodeId × NodeId)))
    (perfect_inv : List (NodeId × NodeId)) (fuel : Nat)
    (acc : List AlignmentCyclePath × List Nat × List NodeId × List NodeId)
    (g1_start : NodeId) :
    List AlignmentCyclePath × List Nat × List NodeId × List NodeId :=
  let entries := acc.1
  let counts := acc.2.1
  let vg1 := acc.2.2.1
  let vg2 := acc.2.2.2
  if vg1.contains g1_start then acc
  else
    match lookupKV alignment g1_start with
    | some g2_node =>
      let is_correct :=
        match perfect with
        | some p =>
          match lookupKV p g1_start with
          | some pg2 => pg2 == g2_node
          | none => false
        | none => false
      if is_correct then
        (entries ++ [⟨CycleCase.CorrectSingleton, [mergedPairName g1_start g2_node]⟩],
          bumpAt counts CycleCase.CorrectSingleton.index,
          insertOnce vg1 g1_start, insertOnce vg2 g2_node)
      else
        let r := chase alignment perfect_inv g1_start fuel g1_start vg1 vg2 [] []
        let vg1' := r.1
        let vg2' := r.2.1
        let chain_nodes := r.2.2.1
        let is_cycle := r.2.2.2
        if chain_nodes.isEmpty then (entries, counts, vg1', vg2')
        else if chain_nodes.length = 1 && !is_cycle then
          (entries ++ [⟨CycleCase.IncorrectSingleton, chain_nodes⟩],
            bumpAt counts CycleCase.IncorrectSingleton.index, vg1', vg2')
        else if is_cycle then
          (entries ++ [⟨CycleCase.IncorrectCycle, chain_nodes⟩],
            bumpAt counts CycleCase.IncorrectCycle.index, vg1', vg2')
        else
          (entries ++ [⟨CycleCase.IncorrectCycle, chain_nodes⟩],
            bumpAt counts CycleCase.IncorrectCycle.index, vg1', vg2')
    | none =>
      let vg1' := insertOnce vg1 g1_start
      match perfect with
      | some p =>
        if (lookupKV p g1_start).isNone then
          (entries ++ [⟨CycleCase.CorrectlyUnalignedBlue, [blueName g1_start]⟩],
            bumpAt counts CycleCase.CorrectlyUnalignedBlue.index, vg1', vg2)
        else (entries, counts, vg1', vg2)
      | none => (entries, counts, vg1', vg2)

/-- `AlignmentCycles::detect` (`cycle.rs:207-414`): build the perfect
inverse, sort the G1 domain, trace every chain.  The two trailing blocks of
the source (`cycle.rs:383-408`) only extend the local `visited_g2` set and
contain an empty case-2 stub, so they do not affect the result. -/
def AlignmentCycles.detect (alignment : List (NodeId × NodeId))
    (perfect : Option (List (NodeId × NodeId))) : AlignmentCycles :=
  let perfect_inv :=
    match perfect with
    | some p => invertMap p
    | none => []
  let g1_sorted := sortIds (dedupKeys (alignment.map (fun q => q.1)))
  let fuel := alignment.length + ((perfect.map (fun p => p.length)).getD 0) + 1
  let r := g1_sorted.foldl (detectStep alignment perfect perfect_inv fuel)
    ([], [0, 0, 0, 0, 0, 0, 0, 0, 0], [], [])
  ⟨r.1, r.2.1⟩

/-- The C2 failing input: `alignment = {a→y, b→z}`, `perfect = {b→y, c→z}`.
Tracing from `a` gives the open chain `a::y → b::z` which terminates at the
unaligned G1 node `c`. -/
def exAlignC2 : List (NodeId × NodeId) := [("a", "y"), ("b", "z")]

/-- The perfect alignment of the C2 failing input. -/
def exPerfectC2 : List (NodeId × NodeId) := [("b", "y"), ("c", "z")]

/-- Modelled from the spec: `NodeColor` of the missing `alignment/types.rs`
(spec §3: Purple | Blue | Red). -/
inductive NodeColor where
  | Purple
  | Blue
  | Red
deriving DecidableEq

/-- Modelled from the spec: `EdgeType` of the missing `alignment/types.rs`
(spec §3: seven values). -/
inductive EdgeType where
  | Covered
  | InducedGraph1
  | HalfOrphanGraph1
  | FullOrphanGraph1
  | InducedGraph2
  | HalfUnalignedGraph2
  | FullUnalignedGraph2
deriving DecidableEq

/-- Modelled from the spec: `EdgeType::short_code` — the tag used as the
merged link's relation (spec §3: G12, pBp/pBb/bBb, pRp/pRr/rRr). -/
def EdgeType.short_code : EdgeType → String
  | .Covered => "G12"
  | .InducedGraph1 => "pBp"
  | .HalfOrphanGraph1 => "pBb"
  | .FullOrphanGraph1 => "bBb"
  | .InducedGraph2 => "pRp"
  | .HalfUnalignedGraph2 => "pRr"
  | .FullUnalignedGraph2 => "rRr"

/-- Modelled from the spec: `MergedNodeId` of the missing
`alignment/types.rs` (spec §3: Purple(g1,g2) | Blue(g1) | Red(g2)). -/
inductive MergedNodeId where
  | Purple (g1 g2 : NodeId)
  | Blue (g1 : NodeId)
  | Red (g2 : NodeId)
deriving DecidableEq

/-- `MergedNodeId::aligned`. -/
def MergedNodeId.aligned (g1 g2 : NodeId) : MergedNodeId := .Purple g1 g2

/-- `MergedNodeId::g1_only`. -/
def MergedNodeId.g1_only (g1 : NodeId) : MergedNodeId := .Blue g1

/-- `MergedNodeId::g2_only`. -/
def MergedNodeId.g2_only (g2 : NodeId) : MergedNodeId := .Red g2

/-- Modelled from the spec: `MergedNodeId::to_node_id` — string forms
`"g1::g2"`, `"g1::"`, `"::g2"` (spec §3). -/
def MergedNodeId.to_node_id : MergedNodeId → NodeId
  | .Purple g1 g2 => mergedPairName g1 g2
  | .Blue g1 => blueName g1
  | .Red g2 => redName g2

/-- `HashMap::insert` with an arbitrary value type: the new entry shadows
any old entry for the same key. -/
def putKV {β : Type} (m : List (NodeId × β)) (k : NodeId) (v : β) :
    List (NodeId × β) :=
  (k, v) :: m.filter (fun p => p.1 != k)

/-- `HashMap::get` with an arbitrary value type. -/
def getKV {β : Type} (m : List (NodeId × β)) (k : NodeId) : Option β :=
  (m.find? (fun q => q.1 == k)).map (fun q => q.2)

/-- `MergedNetwork` (`alignment/merge.rs`). -/
structure MergedNetwork where
  network : Network
  node_colors : List (NodeId × NodeColor)
  edge_types : List EdgeType
  node_origins : List (NodeId × MergedNodeId)
  merged_to_correct : Option (List (NodeId × Bool))
  g1_node_count : Nat
  g2_node_count : Nat
  aligned_count : Nat
deriving DecidableEq

/-- The node-collection block `from_alignment` runs for each input network
(`merge.rs:130-142` and `165-177`): endpoints of non-shadow links, then
lone nodes; the `HashSet` becomes an insertion-ordered deduplicated list. -/
def collectEndpointNodes (g : Network) : List NodeId :=
  let fromLinks := (g.links.filter (fun l => !l.is_shadow)).foldl
    (fun acc l => insertOnce (insertOnce acc l.source) l.target) []
  g.lone_nodes.foldl insertOnce fromLinks

/-- The five mutable maps of `from_alignment`'s node phase
(`merge.rs:93-103`). -/
structure MergeAcc where
  node_colors : List (NodeId × NodeColor)
  node_origins : List (NodeId × MergedNodeId)
  merged_to_correct : Option (List (NodeId × Bool))
  g1_to_merged : List (NodeId × NodeId)
  g2_to_merged : List (NodeId × NodeId)

/-- Step 1a of `from_alignment` (`merge.rs:108-126`): one purple node per
alignment entry, with the correctness record when a perfect alignment was
supplied. -/
def mergeStep1a (perfect : Option (List (NodeId × NodeId))) (acc : MergeAcc)
    (q : NodeId × NodeId) : MergeAcc :=
  let merged_id := MergedNodeId.aligned q.1 q.2
  let node_id := merged_id.to_node_id
  { node_colors := putKV acc.node_colors node_id NodeColor.Purple
    node_origins := putKV acc.node_origins node_id merged_id
    merged_to_correct :=
      match acc.merged_to_correct with
      | some m =>
        let is_correct := ((perfect.bind (fun p => getKV p q.1)).map
          (fun pg2 => pg2 == q.2)).getD false
        some (putKV m node_id is_correct)
      | none => none
    g1_to_merged := putKV acc.g1_to_merged q.1 node_id
    g2_to_merged := putKV acc.g2_to_merged q.2 node_id }

/-- Step 1b of `from_alignment` (`merge.rs:144-162`): one blue node per
unaligned G1 node. -/
def mergeStep1b (perfect : Option (List (NodeId × NodeId))) (acc : MergeAcc)
    (g1_node : NodeId) : MergeAcc :=
  if (getKV acc.g1_to_merged g1_node).isSome then acc
  else
    let merged_id := MergedNodeId.g1_only g1_node
    let node_id := merged_id.to_node_id
    { node_colors := putKV acc.node_colors node_id NodeColor.Blue
      node_origins := putKV acc.node_origins node_id merged_id
      merged_to_correct :=
        match acc.merged_to_correct with
        | some m =>
          let is_correct := (perfect.map
            (fun p => (getKV p g1_node).isNone)).getD false
          some (putKV m node_id is_correct)
        | none => none
      g1_to_merged := putKV acc.g1_to_merged g1_node node_id
      g2_to_merged := acc.g2_to_merged }

/-- Step 1c of `from_alignment` (`merge.rs:179-190`): one red node per
unaligned G2 node; red nodes get no correctness entry. -/
def mergeStep1c (acc : MergeAcc) (g2_node : NodeId) : MergeAcc :=
  if (getKV acc.g2_to_merged g2_node).isSome then acc
  else
    let merged_id := MergedNodeId.g2_only g2_node
    let node_id := merged_id.to_node_id
    { node_colors := putKV acc.node_colors node_id NodeColor.Red
      node_origins := putKV acc.node_origins node_id merged_id
      merged_to_correct := acc.merged_to_correct
      g1_to_merged := acc.g1_to_merged
      g2_to_merged := putKV acc.g2_to_merged g2_node node_id }

/-- Normalize an undirected merged pair to `(min, max)` by the Rust string
order (`merge.rs:206-210` and elsewhere). -/
def normPair (p : NodeId × NodeId) : NodeId × NodeId :=
  if strLe p.1 p.2 then p else (p.2, p.1)

/-- Step 2 of `from_alignment` (`merge.rs:194-237`): rewrite one network's
non-shadow links through its merged-id lookup, deduplicating by normalized
pair; fails when an endpoint is missing from the map.  `tag` is `"G1"` or
`"G2"` for the error message. -/
def translateLinks (toMerged : List (NodeId × NodeId)) (tag : String) :
    List Link → List (NodeId × NodeId) → List (NodeId × NodeId) →
      Except String (List (NodeId × NodeId))
  | [], _, out => .ok out
  | l :: rest, linkSet, out =>
    if l.is_shadow then translateLinks toMerged tag rest linkSet out
    else
      match getKV toMerged l.source with
      | none => .error (tag ++ " node " ++ l.source ++ " not in merged map")
      | some new_src =>
        match getKV toMerged l.target with
        | none => .error (tag ++ " node " ++ l.target ++ " not in merged map")
        | some new_tgt =>
          let key := normPair (new_src, new_tgt)
          if linkSet.contains key then translateLinks toMerged tag rest linkSet out
          else translateLinks toMerged tag rest (linkSet ++ [key])
            (out ++ [(new_src, new_tgt)])

/-- Classification of a G2-pass pair (`merge.rs:276-289`). -/
def classifyG2 (g1_edge_set : List (NodeId × NodeId))
    (aligned_nodes_g2 : List NodeId) (src tgt : NodeId) : EdgeType :=
  if g1_edge_set.contains (normPair (src, tgt)) then .Covered
  else
    let src_aligned := aligned_nodes_g2.contains src
    let tgt_aligned := aligned_nodes_g2.contains tgt
    if src_aligned && tgt_aligned then .InducedGraph2
    else if src_aligned || tgt_aligned then .HalfUnalignedGraph2
    else .FullUnalignedGraph2

/-- Classification of a G1-pass pair that is not covered
(`merge.rs:319-328`). -/
def classifyG1 (aligned_nodes_g1 : List NodeId) (src tgt : NodeId) : EdgeType :=
  let src_aligned := aligned_nodes_g1.contains src
  let tgt_aligned := aligned_nodes_g1.contains tgt
  if src_aligned && tgt_aligned then .InducedGraph1
  else if src_aligned || tgt_aligned then .HalfOrphanGraph1
  else .FullOrphanGraph1

/-- Emit one classified pair (`merge.rs:291-303` and `330-342`): the real
link, then — unless it is a self-loop — the shadow, each pushing the same
`EdgeType` onto the parallel array. -/
def emitPair (acc : Network × List EdgeType) (src tgt : NodeId)
    (edge_type : EdgeType) : Network × List EdgeType :=
  let tag := edge_type.short_code
  let link := Link.new src tgt tag
  let net1 := acc.1.add_link link
  let ets1 := acc.2 ++ [edge_type]
  if src ≠ tgt then
    let shadow := Link.with_shadow tgt src tag true
    (net1.add_link shadow, ets1 ++ [edge_type])
  else (net1, ets1)

/-- The node phase of `from_alignment` (`merge.rs:93-190`): steps 1a, 1b
and 1c run in sequence from the empty maps. -/
def mergeNodePhase (g1 g2 : Network) (alignment : List (NodeId × NodeId))
    (perfect : Option (List (NodeId × NodeId))) : MergeAcc :=
  let acc0 : MergeAcc :=
    ⟨[], [], if perfect.isSome then some [] else none, [], []⟩
  let acc1 := alignment.foldl (mergeStep1a perfect) acc0
  let acc2 := (collectEndpointNodes g1).foldl (mergeStep1b perfect) acc1
  (collectEndpointNodes g2).foldl mergeStep1c acc2

/-- The G2 link pass of `from_alignment` (`merge.rs:270-304`): classify and
emit every translated G2 link, starting from the empty merged network. -/
def mergeEmitG2 (g1_edge_set : List (NodeId × NodeId))
    (aligned_nodes_g2 : List NodeId)
    (new_links_g2 : List (NodeId × NodeId)) : Network × List EdgeType :=
  new_links_g2.foldl
    (fun acc p => emitPair acc p.1 p.2
      (classifyG2 g1_edge_set aligned_nodes_g2 p.1 p.2))
    (Network.init, [])

/-- The G1 link pass of `from_alignment` (`merge.rs:307-343`): emit every
translated G1 link not already covered by the G2 pass. -/
def mergeEmitG1 (g2_edge_set : List (NodeId × NodeId))
    (aligned_nodes_g1 : List NodeId)
    (new_links_g1 : List (NodeId × NodeId))
    (start : Network × List EdgeType) : Network × List EdgeType :=
  new_links_g1.foldl
    (fun acc p =>
      if g2_edge_set.contains (normPair p) then acc
      else emitPair acc p.1 p.2 (classifyG1 aligned_nodes_g1 p.1 p.2))
    start

/-- The lone-node carry-over of `from_alignment` (`merge.rs:346-356`):
`if let Some(mid) = map.get(lone) { net.add_lone_node(mid) }`. -/
def mergeAddLone (toMerged : List (NodeId × NodeId)) (lones : List NodeId)
    (net : Network) : Network :=
  lones.foldl
    (fun net lone => (getKV toMerged lone).elim net net.add_lone_node) net

/-- `MergedNetwork::from_alignment` (`merge.rs:84-367`).  `HashMap`/`HashSet`
iteration orders are unspecified in Rust; the embedding iterates the
alignment in list order and the collected node sets in insertion order.
The properties proved below depend only on contents, not on those orders. -/
def MergedNetwork.from_alignment (g1 g2 : Network)
    (alignment : List (NodeId × NodeId))
    (perfect : Option (List (NodeId × NodeId))) :
    Except String MergedNetwork := do
  let acc3 := mergeNodePhase g1 g2 alignment perfect
  let new_links_g1 ← translateLinks acc3.g1_to_merged "G1" g1.links [] []
  let new_links_g2 ← translateLinks acc3.g2_to_merged "G2" g2.links [] []
  let g1_edge_set := new_links_g1.map normPair
  let g2_edge_set := new_links_g2.map normPair
  let aligned_nodes_g1 := alignment.filterMap (fun q => getKV acc3.g1_to_merged q.1)
  let aligned_nodes_g2 := alignment.filterMap (fun q => getKV acc3.g2_to_merged q.2)
  let pass2 := mergeEmitG2 g1_edge_set aligned_nodes_g2 new_links_g2
  let pass1 := mergeEmitG1 g2_edge_set aligned_nodes_g1 new_links_g1 pass2
  let withLone1 := mergeAddLone acc3.g1_to_merged g1.lone_nodes pass1.1
  let withLone2 := mergeAddLone acc3.g2_to_merged g2.lone_nodes withLone1
  pure
    { network := withLone2
      node_colors := acc3.node_colors
      edge_types := pass1.2
      node_origins := acc3.node_origins
      merged_to_correct := acc3.merged_to_correct
      g1_node_count := (collectEndpointNodes g1).length
      g2_node_count := (collectEndpointNodes g2).length
      aligned_count := alignment.length }

/-- `MergedNetwork::count_by_color`. -/
def MergedNetwork.count_by_color (m : MergedNetwork) (color : NodeColor) : Nat :=
  (m.node_colors.filter (fun p => p.2 == color)).length

/-- Observer: the `EdgeType` recorded for the unordered non-shadow merged
pair `{u, v}` — the entry of the parallel `edge_types` array at the first
matching real link. -/
def MergedNetwork.edge_class (m : MergedNetwork) (u v : NodeId) : Option EdgeType :=
  ((m.network.links.zip m.edge_types).find? (fun p =>
    !p.1.is_shadow && ((p.1.source == u && p.1.target == v)
      || (p.1.source == v && p.1.target == u)))).map (fun p => p.2)

/-- A well-formed original node name: non-empty and free of `:`.  Under
this condition the three merged-name forms `"g1::g2"`, `"g1::"`, `"::g2"`
are pairwise distinct across and within the three families, so the merged
string ids used as `HashMap` keys never collide. -/
def goodName (s : String) : Prop :=
  s.data ≠ [] ∧ ∀ c ∈ s.data, c ≠ ':'

instance (s : String) : Decidable (goodName s) :=
  decidable_of_iff (s.data ≠ [] ∧ ∀ c ∈ s.data, c ≠ ':') Iff.rfl

/-- The key sequence of an association-list map. -/
def keysOf {β : Type} (m : List (NodeId × β)) : List NodeId :=
  m.map (fun p => p.1)

/-- `values().filter(|c| c == color).count()` on a raw color map
(`MergedNetwork::count_by_color` applies it to `node_colors`). -/
def cntColor (m : List (NodeId × NodeColor)) (c : NodeColor) : Nat :=
  (m.filter (fun p => p.2 == c)).length

/-- G1 of the C3 scenario: the triangle on `{a, b, c}`. -/
def exG1K3 : Network :=
  ((Network.init.add_link (Link.new "a" "b" "pp")).add_link
    (Link.new "b" "c" "pp")).add_link (Link.new "a" "c" "pp")

/-- G2 of the C3 scenario: the triangle on `{x, y, z}`. -/
def exG2K3 : Network :=
  ((Network.init.add_link (Link.new "x" "y" "pp")).add_link
    (Link.new "y" "z" "pp")).add_link (Link.new "x" "z" "pp")

/-- The C3 alignment `{a→x, b→y}`. -/
def exAlignC3 : List (NodeId × NodeId) := [("a", "x"), ("b", "y")]

/-- The merged network of the K3/K3 scenario, extracted from the successful
`from_alignment` run. -/
def exMergedC4 : MergedNetwork :=
  (MergedNetwork.from_alignment exG1K3 exG2K3 exAlignC3 none).toOption.getD
    ⟨Network.init, [], [], [], none, 0, 0, 0⟩

/-- Modelled from the spec: `model/annotation.rs` is declared in
`model/mod.rs` but absent from the tree.  Per the spec, an annotation is a
named, colored row/column range; `extract_submodel` only ever constructs
the empty set. -/
structure Annotation where
  name : String
  start_pos : Nat
  end_pos : Nat
  color : Option String
deriving DecidableEq

/-- Modelled from the spec: an ordered collection of annotations. -/
structure AnnotationSet where
  annotations : List Annotation
deriving DecidableEq

/-- `AnnotationSet::new()`. -/
def AnnotationSet.new : AnnotationSet := ⟨[]⟩

/-- `usize::MAX`, the sentinel for "no incident edge yet" in `NodeLayout`. -/
def usizeMax : Nat := usizeSize - 1

/-- `NodeLayout` (`layout/result.rs`): row, the two column spans, display
properties and the optional pre-computed drain zones. -/
structure NodeLayout where
  row : Nat
  min_col : Nat
  max_col : Nat
  min_col_no_shadows : Nat
  max_col_no_shadows : Nat
  name : String
  color_index : Nat
  nid : Option Nat
  plain_drain_zones : Option (List (Nat × Nat))
  shadow_drain_zones : Option (List (Nat × Nat))
deriving DecidableEq

/-- `NodeLayout::new`. -/
def NodeLayout.new (row : Nat) (name : String) : NodeLayout :=
  ⟨row, usizeMax, 0, usizeMax, 0, name, 0, none, none, none⟩

/-- `NodeLayout::has_edges`. -/
def NodeLayout.has_edges (nl : NodeLayout) : Bool :=
  decide (nl.min_col ≤ nl.max_col)

/-- `NodeLayout::has_edges_no_shadows`. -/
def NodeLayout.has_edges_no_shadows (nl : NodeLayout) : Bool :=
  decide (nl.min_col_no_shadows ≤ nl.max_col_no_shadows)

/-- `LinkLayout` (`layout/result.rs`). -/
structure LinkLayout where
  column : Nat
  column_no_shadows : Option Nat
  source_row : Nat
  target_row : Nat
  source : NodeId
  target : NodeId
  relation : String
  is_shadow : Bool
  color_index : Nat
  directed : Option Bool
deriving DecidableEq

/-- `NetworkLayout` (`layout/result.rs`): the `IndexMap` of node layouts
becomes an insertion-ordered association list, the `HashMap` of cluster
assignments an association list. -/
structure NetworkLayout where
  nodes : List (NodeId × NodeLayout)
  links : List LinkLayout
  row_count : Nat
  column_count : Nat
  column_count_no_shadows : Nat
  node_annotations : AnnotationSet
  link_annotations : AnnotationSet
  link_annotations_no_shadows : AnnotationSet
  link_group_order : List String
  layout_mode_text : String
  link_group_annots : String
  cluster_assignments : List (NodeId × String)
deriving DecidableEq

/-- `NetworkLayout::new()`. -/
def NetworkLayout.new : NetworkLayout :=
  ⟨[], [], 0, 0, 0, AnnotationSet.new, AnnotationSet.new, AnnotationSet.new,
    [], "", "", []⟩

/-- The `BTreeMap` compression maps of `extract_submodel`
(`result.rs:233-249`): the compressed coordinate of `x` is its index in the
sorted deduplicated need-set, i.e. the number of distinct collected values
below `x`. -/
def rankIn (s : List Nat) (x : Nat) : Nat :=
  ((s.dedup).filter (fun y => decide (y < x))).length

/-- `Option`-valued running maximum: the
`acc.map_or(c, |m| m.max(c))` update of `extract_submodel`'s
`max_link_col` / `max_shad_link_col` accumulators. -/
def omax (o : Option Nat) (c : Nat) : Option Nat :=
  some (o.elim c (fun m => max m c))

/-- The final `map_or(1, |m| m + 1)` applied to the accumulated maxima
(`result.rs:287-288`): Java stores the count, one past the top index. -/
def bumpOpt (o : Option Nat) : Nat := o.elim 1 (fun m => m + 1)

/-- The compressed no-shadow column of one sub-link (`result.rs:259-267`):
`None` for shadow links, otherwise the compressed original column. -/
def nsContrib (col_rank : Nat → Nat) (ll : LinkLayout) : Option Nat :=
  if ll.is_shadow then none else ll.column_no_shadows.map col_rank

/-- One compressed link of `extract_submodel` (`result.rs:253-281`):
`LinkLayout::new` with compressed coordinates, then `column_no_shadows`
and `color_index` copied over (`directed` stays `None` as in
`LinkLayout::new`). -/
def compressLink (row_rank col_rank shad_rank : Nat → Nat)
    (ll : LinkLayout) : LinkLayout :=
  { column := shad_rank ll.column
    column_no_shadows := nsContrib col_rank ll
    source_row := row_rank ll.source_row
    target_row := row_rank ll.target_row
    source := ll.source
    target := ll.target
    relation := ll.relation
    is_shadow := ll.is_shadow
    color_index := ll.color_index
    directed := none }

/-- The descending column range `hi, hi-1, …, lo` of the plain drain-zone
scan. -/
def descRange (lo hi : Nat) : List Nat :=
  (List.range (hi - lo + 1)).map (fun i => hi - i)

/-- The ascending column range `lo, …, hi` of the shadow drain-zone scan. -/
def ascRange (lo hi : Nat) : List Nat :=
  (List.range (hi - lo + 1)).map (fun i => lo + i)

/-- The plain drain-zone scan of `extract_submodel` (`result.rs:330-368`):
walk the columns from `max` down to `min`; stop at the first missing
column, foreign link, or bottom-anchored link; extend the zone with every
top-anchored column. -/
def plainScan (links : List LinkLayout) (id : NodeId) (row : Nat) :
    List Nat → Option (Nat × Nat) → Option (Nat × Nat)
  | [], dz => dz
  | c :: rest, dz =>
    match links.find? (fun ll =>
        !ll.is_shadow && ll.column_no_shadows == some c) with
    | none => dz
    | some ll =>
      if ll.source != id && ll.target != id then dz
      else
        let bottom := max ll.source_row ll.target_row
        let top := min ll.source_row ll.target_row
        if bottom == row && top != row then dz
        else
          plainScan links id row rest
            (if top == row then
              some (match dz with
                | none => (c, c)
                | some z => (min z.1 c, max z.2 c))
            else dz)

/-- The shadow drain-zone scan of `extract_submodel` (`result.rs:370-399`):
walk the columns from `min` up to `max`; skip missing columns, stop at a
foreign link once the zone is open, and extend the zone with qualifying
columns (top-anchored real link or bottom-anchored shadow link). -/
def shadowScan (links : List LinkLayout) (id : NodeId) (row : Nat) :
    List Nat → Option (Nat × Nat) → Option (Nat × Nat)
  | [], dz => dz
  | c :: rest, dz =>
    match links.find? (fun ll => ll.column == c) with
    | none => shadowScan links id row rest dz
    | some ll =>
      if dz.isSome && ll.source != id && ll.target != id then dz
      else
        let top := min ll.source_row ll.target_row
        let bottom := max ll.source_row ll.target_row
        let qualifies := (top == row && !ll.is_shadow)
          || (bottom == row && ll.is_shadow)
        shadowScan links id row rest
          (if qualifies then
            some (match dz with
              | none => (c, c)
              | some z => (min z.1 c, max z.2 c))
          else dz)

/-- One compressed node of `extract_submodel` (`result.rs:296-401`): fresh
`NodeLayout` at the compressed row, compressed `min` columns guarded by
the full layout's `has_edges` flags with the **global** max columns as
both `max` fields, nid from the full network's enumeration order, the
original row as color, and the two pre-computed drain zones. -/
def buildNode (col_rank shad_rank row_rank : Nat → Nat)
    (max_link_col max_shad_link_col : Nat) (nid : Option Nat)
    (compressed_links : List LinkLayout) (id : NodeId)
    (nl : NodeLayout) : NodeLayout :=
  let new_row := row_rank nl.row
  let base := NodeLayout.new new_row nl.name
  let n1 := if nl.has_edges_no_shadows then
      { base with min_col_no_shadows := col_rank nl.min_col_no_shadows
                  max_col_no_shadows := max_link_col }
    else base
  let n2 := if nl.has_edges then
      { n1 with min_col := shad_rank nl.min_col
                max_col := max_shad_link_col }
    else n1
  let n3 := { n2 with nid := nid, color_index := nl.row }
  let pdz :=
    if n3.max_col_no_shadows ≥ n3.min_col_no_shadows
        ∧ n3.max_col_no_shadows ≠ usizeMax then
      plainScan compressed_links id new_row
        (descRange n3.min_col_no_shadows n3.max_col_no_shadows) none
    else none
  let sdz :=
    if n3.max_col ≥ n3.min_col ∧ n3.min_col ≠ usizeMax then
      shadowScan compressed_links id new_row
        (ascRange n3.min_col n3.max_col) none
    else none
  { n3 with
    plain_drain_zones := some (pdz.elim [] (fun z => [z]))
    shadow_drain_zones := some (sdz.elim [] (fun z => [z])) }

/-- Stable insertion by row (the `sort_by_key(row)` of `result.rs:303`):
a node goes after every already-placed node with a row not above its
own. -/
def insertByRow (p : NodeId × NodeLayout) :
    List (NodeId × NodeLayout) → List (NodeId × NodeLayout)
  | [] => [p]
  | q :: rest =>
    if q.2.row ≤ p.2.row then q :: insertByRow p rest else p :: q :: rest

/-- Stable sort of the extracted node entries by row. -/
def sortByRow (l : List (NodeId × NodeLayout)) : List (NodeId × NodeLayout) :=
  l.foldl (fun acc p => insertByRow p acc) []

/-- `NetworkLayout::extract_submodel` (`result.rs:188-416`).  The `HashSet`
argument becomes a list queried by `contains`; the `BTreeSet` need-sets
become collected value lists ranked by `rankIn`; the source's single link
loop, which simultaneously builds `compressed_links` and folds the two
column maxima, is split here into one `map` and two folds over the same
`sub_links` in the same order, producing identical values; the `nid`
`HashMap` built from `network.node_ids()` enumeration becomes
`findIdx?`. -/
def NetworkLayout.extract_submodel (layout : NetworkLayout)
    (network : Network) (extract_set : List NodeId) :
    Network × NetworkLayout :=
  let sub_links := layout.links.filter (fun ll =>
    extract_set.contains ll.source && extract_set.contains ll.target)
  let extract_nodes := layout.nodes.filter
    (fun p => extract_set.contains p.1)
  let need_rows := extract_nodes.map (fun p => p.2.row)
    ++ sub_links.map (fun ll => ll.source_row)
    ++ sub_links.map (fun ll => ll.target_row)
  let need_columns :=
    (extract_nodes.filter (fun p => p.2.has_edges_no_shadows)).map
      (fun p => p.2.min_col_no_shadows)
    ++ (sub_links.filter (fun ll => !ll.is_shadow)).filterMap
      (fun ll => ll.column_no_shadows)
  let need_columns_shad :=
    (extract_nodes.filter (fun p => p.2.has_edges)).map (fun p => p.2.min_col)
    ++ sub_links.map (fun ll => ll.column)
  let row_rank := rankIn need_rows
  let col_rank := rankIn need_columns
  let shad_rank := rankIn need_columns_shad
  let compressed_links := sub_links.map (compressLink row_rank col_rank shad_rank)
  let max_link_col :=
    bumpOpt ((sub_links.filterMap (nsContrib col_rank)).foldl omax none)
  let max_shad_link_col :=
    bumpOpt ((sub_links.map (fun ll => shad_rank ll.column)).foldl omax none)
  let nodes_sorted := sortByRow extract_nodes
  let compressed_nodes := nodes_sorted.map (fun p =>
    (p.1, buildNode col_rank shad_rank row_rank max_link_col max_shad_link_col
      (network.node_ids.findIdx? (fun x => x == p.1)) compressed_links
      p.1 p.2))
  let sub_network := network.extract_subnetwork extract_set
  (sub_network,
    { NetworkLayout.new with
      nodes := compressed_nodes
      links := compressed_links
      row_count := need_rows.dedup.length
      column_count := max_shad_link_col
      column_count_no_shadows := max_link_col })

/-- A full layout for the C7 scenario: nodes `A` (row 0) and `B` (row 1)
joined by the single real link in column 0 (also column 0 with shadows
hidden). -/
def exLayoutC7 : NetworkLayout :=
  { NetworkLayout.new with
    nodes := [("A", ⟨0, 0, 0, 0, 0, "A", 0, none, none, none⟩),
              ("B", ⟨1, 0, 0, 0, 0, "B", 0, none, none, none⟩)]
    links := [⟨0, some 0, 0, 1, "A", "B", "pp", false, 0, none⟩]
    row_count := 2
    column_count := 1
    column_count_no_shadows := 1 }

/-- The network behind `exLayoutC7`. -/
def exNetC7 : Network := Network.init.add_link (Link.new "A" "B" "pp")

/-- The first node entry of the extracted C7 submodel. -/
def exSubNodeC7 : NodeId × NodeLayout :=
  ((exLayoutC7.extract_submodel exNetC7 ["A", "B"]).2).nodes.headD
    ("", NodeLayout.new 0 "")

/-!
## Theorems

Helper lemmas come first; each claim's theorem carries a doc comment naming
the claim. -/

theorem add_node_lone_nodes (net : Network) (n : Node) :
    (net.add_node n).lone_nodes = net.lone_nodes := by
  unfold Network.add_node
  split <;> rfl

theorem extract_fold_lone_nodes (net : Network) (ids : List NodeId) (sub : Network) :
    (ids.foldl
      (fun sub id =>
        match net.get_node id with
        | some node => sub.add_node node
        | none => sub)
      sub).lone_nodes = sub.lone_nodes := by
  induction ids generalizing sub with
  | nil => rfl
  | cons a as ih =>
    rw [List.foldl_cons, ih]
    cases h : net.get_node a <;> simp [add_node_lone_nodes]

/-- C9: `Network::extract_subnetwork` never carries lone-node status into
the extracted subnetwork — the result's `lone_nodes` set is always empty,
for every network and every extract set. -/
theorem claim_extract_subnetwork_lone_nodes_empty (net : Network) (ids : List NodeId) :
    (net.extract_subnetwork ids).lone_nodes = [] := by
  show (ids.foldl _ Network.init).lone_nodes = []
  rw [extract_fold_lone_nodes]
  rfl

/-- C10: `SelectionState::select_node` replaces the entire selection: the
selected node set becomes exactly `[id]` and the selected link set becomes
empty, whatever was selected before. -/
theorem claim_select_node_replaces_selection (s : SelectionState) (id : NodeId) :
    (s.select_node id).nodes = [id] ∧ (s.select_node id).links = [] :=
  ⟨rfl, rfl⟩

theorem generate_shadows_links (net : Network) :
    ((net.generate_shadows).1).links
      = net.links ++ (net.links.filter (fun l => !l.is_shadow)).filterMap Link.to_shadow := by
  unfold Network.generate_shadows Network.invalidate_adjacency
  dsimp only
  split <;> rfl

theorem to_shadow_is_shadow (ls : List Link) :
    ∀ l ∈ ls.filterMap Link.to_shadow, l.is_shadow = true := by
  intro l hl
  rcases List.mem_filterMap.mp hl with ⟨a, _, ha⟩
  unfold Link.to_shadow at ha
  split at ha
  · exact absurd ha (by simp)
  · cases Option.some.inj ha
    rfl

theorem filterMap_to_shadow_length (ls : List Link) :
    (ls.filterMap Link.to_shadow).length
      = (ls.filter (fun l => l.source != l.target)).length := by
  induction ls with
  | nil => rfl
  | cons a as ih =>
    by_cases h : a.source = a.target <;>
      simp [List.filterMap_cons, List.filter_cons, Link.to_shadow, h, ih]

theorem filter_not_shadow_of_all_real (ls : List Link)
    (h : ∀ l ∈ ls, l.is_shadow = false) :
    ls.filter (fun l => !l.is_shadow) = ls := by
  apply List.filter_eq_self.mpr
  intro a ha
  simp [h a ha]

theorem filter_shadow_of_all_real (ls : List Link)
    (h : ∀ l ∈ ls, l.is_shadow = false) :
    ls.filter (fun l => l.is_shadow) = [] := by
  apply List.filter_eq_nil_iff.mpr
  intro a ha
  simp [h a ha]

theorem shadow_count_links (net : Network) :
    net.shadow_count = (net.links.filter (fun l => l.is_shadow)).length := rfl

/-- Counterexample to C1 as stated: on the one-link network `A—B`, a second
`generate_shadows` call changes the total link count (2 links after one
call, 3 after two), so shadow generation is not idempotent. -/
theorem claim_generate_shadows_idempotent_cx :
    ¬ (((exNetAB.generate_shadows).1.generate_shadows).1.link_count
        = (exNetAB.generate_shadows).1.link_count) := by
  decide

/-- C1 (amended): `generate_shadows` is not idempotent — each call adds one
shadow per non-shadow non-self-loop link present at call time.  On an
initially shadow-free network, one call adds exactly one shadow link per
real non-self-loop link; a second call adds the same number again, so the
shadow count doubles and the link count grows by that number once more. -/
theorem claim_generate_shadows_adds_per_call (net : Network)
    (h : ∀ l ∈ net.links, l.is_shadow = false) :
    (net.generate_shadows).1.shadow_count = net.real_non_self_count
    ∧ ((net.generate_shadows).1.generate_shadows).1.shadow_count
        = 2 * net.real_non_self_count
    ∧ ((net.generate_shadows).1.generate_shadows).1.link_count
        = (net.generate_shadows).1.link_count + net.real_non_self_count := by
  have hreal : net.real_non_self_count
      = (net.links.filter (fun l => l.source != l.target)).length := by
    unfold Network.real_non_self_count
    congr 1
    apply List.filter_congr
    intro a ha
    simp [h a ha]
  have hsh : (net.links.filter (fun l => !l.is_shadow)).filterMap Link.to_shadow
      = net.links.filterMap Link.to_shadow := by
    rw [filter_not_shadow_of_all_real net.links h]
  have hlen : (net.links.filterMap Link.to_shadow).length = net.real_non_self_count := by
    rw [filterMap_to_shadow_length, hreal]
  have h1links : ((net.generate_shadows).1).links
      = net.links ++ net.links.filterMap Link.to_shadow := by
    rw [generate_shadows_links, hsh]
  have h1count : (net.generate_shadows).1.shadow_count = net.real_non_self_count := by
    rw [shadow_count_links, h1links, List.filter_append,
      filter_shadow_of_all_real net.links h]
    simp only [List.nil_append]
    rw [List.filter_eq_self.mpr (to_shadow_is_shadow net.links), hlen]
  have h2shadows :
      (((net.generate_shadows).1).links.filter (fun l => !l.is_shadow)).filterMap
          Link.to_shadow
        = net.links.filterMap Link.to_shadow := by
    rw [h1links, List.filter_append, filter_not_shadow_of_all_real net.links h]
    have : (net.links.filterMap Link.to_shadow).filter (fun l => !l.is_shadow) = [] := by
      apply List.filter_eq_nil_iff.mpr
      intro a ha
      simp [to_shadow_is_shadow net.links a ha]
    rw [this, List.append_nil]
  have h2links : (((net.generate_shadows).1.generate_shadows).1).links
      = ((net.generate_shadows).1).links ++ net.links.filterMap Link.to_shadow := by
    rw [generate_shadows_links, h2shadows]
  refine ⟨h1count, ?_, ?_⟩
  · rw [shadow_count_links, h2links, List.filter_append, List.length_append,
      List.filter_eq_self.mpr (to_shadow_is_shadow net.links), hlen]
    rw [← shadow_count_links, h1count]
    ring
  · show (((net.generate_shadows).1.generate_shadows).1).links.length
        = ((net.generate_shadows).1).links.length + net.real_non_self_count
    rw [h2links, List.length_append, hlen]

/-- Witness for the amended C1 on a concrete network with one real link and
one self-loop: the self-loop gets no shadow, so each call adds exactly one
shadow. -/
theorem claim_generate_shadows_adds_per_call_witness :
    (∀ l ∈ exNetABself.links, l.is_shadow = false)
    ∧ ((exNetABself.generate_shadows).1.shadow_count = exNetABself.real_non_self_count
      ∧ ((exNetABself.generate_shadows).1.generate_shadows).1.shadow_count
          = 2 * exNetABself.real_non_self_count
      ∧ ((exNetABself.generate_shadows).1.generate_shadows).1.link_count
          = (exNetABself.generate_shadows).1.link_count
              + exNetABself.real_non_self_count) :=
  ⟨by decide, claim_generate_shadows_adds_per_call exNetABself (by decide)⟩

theorem find?_map_key_preserving (g : NodeId × List Nat → NodeId × List Nat)
    (hg : ∀ p, (g p).1 = p.1) (j : NodeId) (ps : List (NodeId × List Nat)) :
    (ps.map g).find? (fun p => p.1 == j) = (ps.find? (fun p => p.1 == j)).map g := by
  induction ps with
  | nil => rfl
  | cons q qs ih =>
    by_cases h : q.1 = j
    · simp [List.find?_cons, hg, h]
    · have hb : (q.1 == j) = false := by simp [h]
      simp only [List.map_cons, List.find?_cons, hg, hb]
      exact ih

theorem idxVal_pushIndex (m : List (NodeId × List Nat)) (k : NodeId) (i : Nat)
    (j : NodeId) :
    idxVal (pushIndex m k i) j = if j = k then idxVal m k ++ [i] else idxVal m j := by
  unfold pushIndex
  by_cases hany : (m.any (fun p => p.1 == k)) = true
  · rw [if_pos hany]
    have hmap := find?_map_key_preserving
      (fun p => if p.1 == k then (p.1, p.2 ++ [i]) else p)
      (fun p => by dsimp only; split <;> rfl) j m
    unfold idxVal
    rw [hmap]
    by_cases hj : j = k
    · subst hj
      obtain ⟨p, hfind⟩ :=
        Option.isSome_iff_exists.mp (List.find?_isSome.mpr (List.any_eq_true.mp hany))
      have hpk : p.1 = j := by simpa using List.find?_some hfind
      simp [idxVal, hfind, hpk]
    · cases hfind : m.find? (fun p => p.1 == j) with
      | none => simp [hj]
      | some p =>
        have hp : p.1 = j := by
          have := List.find?_some hfind
          simpa using this
        simp [hj, hp, if_neg]
  · rw [if_neg hany]
    unfold idxVal
    rw [List.find?_append]
    have hnone : m.find? (fun p => p.1 == k) = none := by
      cases hfind : m.find? (fun p => p.1 == k) with
      | none => rfl
      | some p =>
        exact absurd (List.any_eq_true.mpr
          ⟨p, List.mem_of_find?_eq_some hfind, List.find?_some hfind⟩) hany
    by_cases hj : j = k
    · subst hj
      rw [hnone]
      simp
    · cases hfind : m.find? (fun p => p.1 == j) with
      | none => simp [hj, Ne.symm hj]
      | some p => simp [hj]

theorem idxVal_rebuildFold (ls : List Link) :
    ∀ (m : List (NodeId × List Nat)) (i : Nat) (k : NodeId),
      idxVal (rebuildFold m i ls) k = idxVal m k ++ incFrom k i ls := by
  induction ls with
  | nil => intro m i k; simp [rebuildFold, incFrom]
  | cons l rest ih =>
    intro m i k
    rw [show rebuildFold m i (l :: rest)
        = rebuildFold (if l.source == l.target then pushIndex m l.source i
            else pushIndex (pushIndex m l.source i) l.target i) (i + 1) rest from rfl]
    rw [ih]
    have hstep : idxVal (if l.source == l.target then pushIndex m l.source i
        else pushIndex (pushIndex m l.source i) l.target i) k
        = idxVal m k ++ (if l.source == k || l.target == k then [i] else []) := by
      by_cases hst : l.source = l.target
      · rw [if_pos (show (l.source == l.target) = true by simp [hst]),
          idxVal_pushIndex]
        by_cases hk : k = l.source
        · rw [if_pos hk, hk,
            if_pos (show (l.source == l.source || l.target == l.source) = true by simp)]
        · have hk2 : ¬ k = l.target := by rw [← hst]; exact hk
          rw [if_neg hk,
            if_neg (show ¬ (l.source == k || l.target == k) = true by
              simp only [Bool.or_eq_true, beq_iff_eq]
              push_neg
              exact ⟨fun h => hk h.symm, fun h => hk2 h.symm⟩),
            List.append_nil]
      · rw [if_neg (show ¬ (l.source == l.target) = true by simp [hst]),
          idxVal_pushIndex]
        by_cases hk2 : k = l.target
        · rw [if_pos hk2, idxVal_pushIndex,
            if_neg (show ¬ l.target = l.source from fun h => hst h.symm), hk2,
            if_pos (show (l.source == l.target || l.target == l.target) = true by simp)]
        · rw [if_neg hk2, idxVal_pushIndex]
          by_cases hk1 : k = l.source
          · rw [if_pos hk1, hk1,
              if_pos (show (l.source == l.source || l.target == l.source) = true by
                simp)]
          · rw [if_neg hk1,
              if_neg (show ¬ (l.source == k || l.target == k) = true by
                simp only [Bool.or_eq_true, beq_iff_eq]
                push_neg
                exact ⟨fun h => hk1 h.symm, fun h => hk2 h.symm⟩),
              List.append_nil]
    rw [hstep, show incFrom k i (l :: rest)
        = (if l.source == k || l.target == k then [i] else []) ++ incFrom k (i + 1) rest
      from rfl, List.append_assoc]

theorem prepop_entries (ids : List NodeId) :
    ∀ acc, (∀ p ∈ acc, p.2 = ([] : List Nat)) →
      ∀ p ∈ ids.foldl (fun m id =>
          if m.any (fun q => q.1 == id) then m else m ++ [(id, [])]) acc,
        p.2 = ([] : List Nat) := by
  induction ids with
  | nil => intro acc h; exact h
  | cons a as ih =>
    intro acc h
    rw [List.foldl_cons]
    apply ih
    intro p hp
    by_cases hany : (acc.any (fun q => q.1 == a)) = true
    · rw [if_pos hany] at hp; exact h p hp
    · rw [if_neg hany] at hp
      rcases List.mem_append.mp hp with h1 | h2
      · exact h p h1
      · have : p = (a, ([] : List Nat)) := by simpa using h2
        rw [this]

theorem idxVal_prepop (ids : List NodeId) (k : NodeId) :
    idxVal (ids.foldl (fun m id =>
        if m.any (fun q => q.1 == id) then m else m ++ [(id, [])]) []) k = [] := by
  unfold idxVal
  cases hfind : (ids.foldl (fun m id =>
      if m.any (fun q => q.1 == id) then m else m ++ [(id, [])]) []).find?
      (fun p => p.1 == k) with
  | none => rfl
  | some p =>
    have hp := prepop_entries ids [] (by intro q hq; cases hq) p
      (List.mem_of_find?_eq_some hfind)
    simp [hp]

theorem rebuild_idxVal (net : Network) (k : NodeId) :
    idxVal (net.rebuild_adjacency_index).adjacency.by_node k
      = incFrom k 0 net.links := by
  show idxVal (rebuildFold _ 0 net.links) k = _
  rw [idxVal_rebuildFold, idxVal_prepop, List.nil_append]

theorem incFrom_length (k : NodeId) :
    ∀ (ls : List Link) (i : Nat),
      (incFrom k i ls).length
        = (ls.filter (fun l => l.source == k || l.target == k)).length := by
  intro ls
  induction ls with
  | nil => intro i; rfl
  | cons l rest ih =>
    intro i
    rw [show incFrom k i (l :: rest)
        = (if l.source == k || l.target == k then [i] else []) ++ incFrom k (i + 1) rest
      from rfl, List.length_append, ih, List.filter_cons]
    by_cases hc : (l.source == k || l.target == k) = true <;>
      simp [hc, Nat.add_comm]

theorem incFrom_filterMap_bind {β : Type} (k : NodeId) (f : Link → Option β) :
    ∀ (ls pre : List Link),
      (incFrom k pre.length ls).filterMap (fun i => ((pre ++ ls)[i]?).bind f)
        = (ls.filter (fun l => l.source == k || l.target == k)).filterMap f := by
  intro ls
  induction ls with
  | nil => intro pre; rfl
  | cons l rest ih =>
    intro pre
    have hget : ((pre ++ l :: rest)[pre.length]?) = some l := by
      rw [List.getElem?_append_right (Nat.le_refl _)]
      simp
    have htail : (incFrom k (pre.length + 1) rest).filterMap
          (fun i => ((pre ++ l :: rest)[i]?).bind f)
        = (rest.filter (fun l => l.source == k || l.target == k)).filterMap f := by
      have h1 : pre.length + 1 = (pre ++ [l]).length := by simp
      have h2 : pre ++ l :: rest = (pre ++ [l]) ++ rest := by simp
      rw [h1]
      simp only [h2]
      exact ih (pre ++ [l])
    rw [show incFrom k pre.length (l :: rest)
        = (if l.source == k || l.target == k then [pre.length] else [])
            ++ incFrom k (pre.length + 1) rest from rfl,
      List.filterMap_append, htail, List.filter_cons]
    by_cases hc : (l.source == k || l.target == k) = true
    · rw [if_pos hc, if_pos hc]
      cases hfl : f l with
      | none =>
        simp only [List.filterMap_cons, List.filterMap_nil, hget, Option.some_bind,
          hfl, List.nil_append]
      | some b =>
        simp only [List.filterMap_cons, List.filterMap_nil, hget, Option.some_bind,
          hfl, List.singleton_append]
    · rw [if_neg hc, if_neg hc, List.filterMap_nil, List.nil_append]

theorem filterMap_over_filter {β : Type} (step : Link → Option β) (c : Link → Bool)
    (hc : ∀ l, c l = false → step l = none) :
    ∀ ls : List Link, (ls.filter c).filterMap step = ls.filterMap step := by
  intro ls
  induction ls with
  | nil => rfl
  | cons l rest ih =>
    rw [List.filter_cons]
    by_cases h : c l = true
    · rw [if_pos h, List.filterMap_cons, List.filterMap_cons, ih]
    · have hf : c l = false := by revert h; cases c l <;> simp
      rw [if_neg h, List.filterMap_cons, hc l hf, ih]

/-- C8: after `rebuild_adjacency_index`, the indexed paths of
`links_for_node`, `degree` and `neighbors` return exactly what the
linear-scan fallback returns on the same link list — and an
index-invalidated network returns the same, so building the index never
changes any of the three queries. -/
theorem claim_adjacency_index_refines_scan (net : Network) (id : NodeId) :
    (net.rebuild_adjacency_index).links_for_node id
        = net.links.filter (fun l => l.source == id || l.target == id)
    ∧ (net.rebuild_adjacency_index).degree id
        = (net.links.filter (fun l => l.source == id || l.target == id)).length
    ∧ (net.rebuild_adjacency_index).neighbors id
        = (net.links.filterMap (neighborStep id)).toFinset
    ∧ (net.invalidate_adjacency).links_for_node id
        = net.links.filter (fun l => l.source == id || l.target == id)
    ∧ (net.invalidate_adjacency).degree id
        = (net.links.filter (fun l => l.source == id || l.target == id)).length
    ∧ (net.invalidate_adjacency).neighbors id
        = (net.links.filterMap (neighborStep id)).toFinset := by
  have hadj : (net.rebuild_adjacency_index).adjacency_indices_for id
      = ((net.rebuild_adjacency_index).adjacency.by_node.find?
          (fun p => p.1 == id)).map (fun p => p.2) := rfl
  have hstep : ∀ l : Link, (fun l => l.source == id || l.target == id) l = false →
      neighborStep id l = none := by
    intro l h
    unfold neighborStep
    simp only [Bool.or_eq_false_iff] at h
    rw [if_neg (by simp [h.1]), if_neg (by simp [h.2])]
  have hval_of : ∀ p, (net.rebuild_adjacency_index).adjacency.by_node.find?
      (fun q => q.1 == id) = some p → p.2 = incFrom id 0 net.links := by
    intro p hfind
    have h := rebuild_idxVal net id
    unfold idxVal at h
    rw [hfind] at h
    simpa using h
  have hlinks : (net.rebuild_adjacency_index).links_for_node id
      = net.links.filter (fun l => l.source == id || l.target == id) := by
    unfold Network.links_for_node
    rw [hadj]
    cases hfind : (net.rebuild_adjacency_index).adjacency.by_node.find?
        (fun q => q.1 == id) with
    | none => rfl
    | some p =>
      show p.2.filterMap (fun i => net.links[i]?) = _
      rw [hval_of p hfind]
      have hfun : (fun (i : Nat) => net.links[i]?)
          = (fun (i : Nat) => (net.links[i]?).bind some) := by
        funext i
        cases net.links[i]? <;> rfl
      rw [hfun]
      have h := incFrom_filterMap_bind id (some : Link → Option Link) net.links []
      simp only [List.length_nil, List.nil_append] at h
      rw [h, List.filterMap_some]
  have hdeg : (net.rebuild_adjacency_index).degree id
      = (net.links.filter (fun l => l.source == id || l.target == id)).length := by
    unfold Network.degree
    rw [hadj]
    cases hfind : (net.rebuild_adjacency_index).adjacency.by_node.find?
        (fun q => q.1 == id) with
    | none => rfl
    | some p =>
      show p.2.length = _
      rw [hval_of p hfind, incFrom_length]
  have hnb : (net.rebuild_adjacency_index).neighbors id
      = (net.links.filterMap (neighborStep id)).toFinset := by
    unfold Network.neighbors
    rw [hadj]
    cases hfind : (net.rebuild_adjacency_index).adjacency.by_node.find?
        (fun q => q.1 == id) with
    | none => rfl
    | some p =>
      show (p.2.filterMap (fun i => (net.links[i]?).bind (neighborStep id))).toFinset = _
      rw [hval_of p hfind]
      have h := incFrom_filterMap_bind id (neighborStep id) net.links []
      simp only [List.length_nil, List.nil_append] at h
      rw [h, filterMap_over_filter (neighborStep id) _ hstep]
  exact ⟨hlinks, hdeg, hnb, rfl, rfl, rfl⟩

theorem to_shadow_none_iff (l : Link) : l.to_shadow = none ↔ l.source = l.target := by
  unfold Link.to_shadow
  split <;> simp_all

theorem is_feedback_iff (l : Link) : l.is_feedback = true ↔ l.source = l.target := by
  unfold Link.is_feedback
  simp [beq_iff_eq]

theorem sif_tokens_empty : sif_tokens ⟨[]⟩ = [] := rfl

theorem strTrim_empty_eq (line : String) (h : (strTrim line).data.isEmpty = true) :
    strTrim line = ⟨[]⟩ := by
  have hd : (strTrim line).data = [] := by
    simpa [List.isEmpty_iff] using h
  cases hs : strTrim line
  rw [hs] at hd
  simp_all

theorem sifStep_effect (acc : ImportStats × List Link × List String) (line : String) :
    (sifStep acc line).2.1 = acc.2.1 ++ sif_line_links line
    ∧ (sifStep acc line).2.2 = acc.2.2 ++ sif_line_lone line := by
  by_cases hempty : ((strTrim line).data.isEmpty = true)
  · have htok : sif_tokens (strTrim line) = [] := by
      rw [strTrim_empty_eq line hempty]
      exact sif_tokens_empty
    simp [sifStep, sif_line_links, sif_line_lone, hempty, htok]
  · cases htok : sif_tokens (strTrim line) with
    | nil => simp [sifStep, sif_line_links, sif_line_lone, hempty, htok]
    | cons t0 rest =>
      cases rest with
      | nil => simp [sifStep, sif_line_links, sif_line_lone, hempty, htok]
      | cons t1 rest2 =>
        cases rest2 with
        | nil => simp [sifStep, sif_line_links, sif_line_lone, hempty, htok]
        | cons t2 rest3 =>
          cases rest3 with
          | cons t3 rest4 =>
            simp [sifStep, sif_line_links, sif_line_lone, hempty, htok]
          | nil =>
            by_cases hfb : (Link.new (strip_quotes t0) (strip_quotes t2)
                (strip_quotes t1)).is_feedback = true
            · have hsh : (Link.new (strip_quotes t0) (strip_quotes t2)
                  (strip_quotes t1)).to_shadow = none :=
                (to_shadow_none_iff _).mpr ((is_feedback_iff _).mp hfb)
              simp [sifStep, sif_line_links, sif_line_lone, hempty, htok, hfb, hsh]
            · cases hsh : (Link.new (strip_quotes t0) (strip_quotes t2)
                  (strip_quotes t1)).to_shadow with
              | none =>
                exact absurd ((is_feedback_iff _).mpr ((to_shadow_none_iff _).mp hsh))
                  hfb
              | some shadow =>
                simp [sifStep, sif_line_links, sif_line_lone, hempty, htok, hfb, hsh]

theorem foldl_sifStep_effect (lines : List String) :
    ∀ acc, ((lines.foldl sifStep acc).2.1
        = acc.2.1 ++ lines.flatMap sif_line_links)
      ∧ ((lines.foldl sifStep acc).2.2
        = acc.2.2 ++ lines.flatMap sif_line_lone) := by
  induction lines with
  | nil => intro acc; simp
  | cons a as ih =>
    intro acc
    rw [List.foldl_cons, List.flatMap_cons, List.flatMap_cons]
    obtain ⟨ih1, ih2⟩ := ih (sifStep acc a)
    obtain ⟨hs1, hs2⟩ := sifStep_effect acc a
    constructor
    · rw [ih1, hs1, List.append_assoc]
    · rw [ih2, hs2, List.append_assoc]

theorem add_node_links (net : Network) (n : Node) :
    (net.add_node n).links = net.links := by
  unfold Network.add_node
  split <;> rfl

theorem add_link_links (net : Network) (l : Link) :
    (net.add_link l).links = net.links ++ [l] := by
  unfold Network.add_link Network.add_node_by_id Network.invalidate_adjacency
  dsimp only
  rw [add_node_links, add_node_links]

theorem foldl_add_link_links (ls : List Link) :
    ∀ net : Network, (ls.foldl Network.add_link net).links = net.links ++ ls := by
  induction ls with
  | nil => intro net; simp
  | cons l rest ih =>
    intro net
    rw [List.foldl_cons, ih, add_link_links, List.append_assoc]
    rfl

theorem add_link_lone_nil (net : Network) (l : Link)
    (h : net.lone_nodes = []) : (net.add_link l).lone_nodes = [] := by
  unfold Network.add_link Network.add_node_by_id Network.invalidate_adjacency
  dsimp only
  rw [add_node_lone_nodes, add_node_lone_nodes, h]
  rfl

theorem foldl_add_link_lone_nil (ls : List Link) :
    ∀ net : Network, net.lone_nodes = [] →
      (ls.foldl Network.add_link net).lone_nodes = [] := by
  induction ls with
  | nil => intro net h; exact h
  | cons l rest ih =>
    intro net h
    rw [List.foldl_cons]
    exact ih _ (add_link_lone_nil net l h)

theorem add_lone_node_links (net : Network) (id : NodeId) :
    (net.add_lone_node id).links = net.links := by
  unfold Network.add_lone_node Network.add_node_by_id
  dsimp only
  rw [add_node_links]

theorem foldl_add_lone_links (names : List NodeId) :
    ∀ net : Network, (names.foldl Network.add_lone_node net).links = net.links := by
  induction names with
  | nil => intro net; rfl
  | cons a as ih =>
    intro net
    rw [List.foldl_cons, ih, add_lone_node_links]

theorem add_lone_node_lone (net : Network) (id : NodeId) :
    (net.add_lone_node id).lone_nodes = insertOnce net.lone_nodes id := by
  unfold Network.add_lone_node Network.add_node_by_id
  dsimp only
  rw [add_node_lone_nodes]

theorem mem_insertOnce (xs : List NodeId) (y x : NodeId) :
    x ∈ insertOnce xs y ↔ x ∈ xs ∨ x = y := by
  unfold insertOnce
  by_cases h : xs.contains y = true
  · have hy : y ∈ xs := by simpa using h
    rw [if_pos h]
    constructor
    · exact Or.inl
    · rintro (hx | rfl)
      · exact hx
      · exact hy
  · rw [if_neg h]
    simp

theorem foldl_add_lone_mem (names : List NodeId) :
    ∀ (net : Network) (x : NodeId),
      x ∈ (names.foldl Network.add_lone_node net).lone_nodes
        ↔ x ∈ net.lone_nodes ∨ x ∈ names := by
  induction names with
  | nil => intro net x; simp
  | cons a as ih =>
    intro net x
    rw [List.foldl_cons, ih, add_lone_node_lone, mem_insertOnce]
    simp only [List.mem_cons]
    tauto


theorem Link.new_is_shadow (s t r : String) : (Link.new s t r).is_shadow = false := rfl

theorem sif_line_links_shadow (line : String) :
    ((sif_line_links line).filter (fun l => l.is_shadow)).length
      = (if (match sif_tokens (strTrim line) with
          | [t0, _, t2] => strip_quotes t0 != strip_quotes t2
          | _ => false) = true then 1 else 0) := by
  unfold sif_line_links
  cases htok : sif_tokens (strTrim line) with
  | nil => rfl
  | cons t0 rest =>
    cases rest with
    | nil => rfl
    | cons t1 rest2 =>
      cases rest2 with
      | nil => rfl
      | cons t2 rest3 =>
        cases rest3 with
        | cons t3 rest4 => rfl
        | nil =>
          by_cases hst : strip_quotes t0 = strip_quotes t2
          · have hfb : (Link.new (strip_quotes t0) (strip_quotes t2)
                (strip_quotes t1)).is_feedback = true :=
              (is_feedback_iff _).mpr hst
            have hbne : (strip_quotes t0 != strip_quotes t2) = false := by
              simp [hst]
            simp [hfb, hbne, Link.new_is_shadow]
          · have hfb : ¬ (Link.new (strip_quotes t0) (strip_quotes t2)
                (strip_quotes t1)).is_feedback = true := by
              rw [is_feedback_iff]
              exact hst
            have hb : (!(Link.new (strip_quotes t0) (strip_quotes t2)
                (strip_quotes t1)).is_feedback) = true := by
              revert hfb
              cases (Link.new (strip_quotes t0) (strip_quotes t2)
                (strip_quotes t1)).is_feedback <;> simp
            have hsh : (Link.new (strip_quotes t0) (strip_quotes t2)
                (strip_quotes t1)).to_shadow
                = some ⟨strip_quotes t2, strip_quotes t0, strip_quotes t1, none,
                    true⟩ := by
              unfold Link.to_shadow Link.new
              rw [if_neg hst]
            have hbne : (strip_quotes t0 != strip_quotes t2) = true := by
              simp [hst]
            simp [hb, hsh, hbne, Link.new_is_shadow]

theorem sif_line_links_regular (line : String) :
    ((sif_line_links line).filter (fun l => !l.is_shadow)).length
      = (if (match sif_tokens (strTrim line) with
          | [_, _, _] => true
          | _ => false) = true then 1 else 0) := by
  unfold sif_line_links
  cases htok : sif_tokens (strTrim line) with
  | nil => rfl
  | cons t0 rest =>
    cases rest with
    | nil => rfl
    | cons t1 rest2 =>
      cases rest2 with
      | nil => rfl
      | cons t2 rest3 =>
        cases rest3 with
        | cons t3 rest4 => rfl
        | nil =>
          by_cases hst : strip_quotes t0 = strip_quotes t2
          · have hfb : (Link.new (strip_quotes t0) (strip_quotes t2)
                (strip_quotes t1)).is_feedback = true :=
              (is_feedback_iff _).mpr hst
            simp [hfb, Link.new_is_shadow]
          · have hfb : ¬ (Link.new (strip_quotes t0) (strip_quotes t2)
                (strip_quotes t1)).is_feedback = true := by
              rw [is_feedback_iff]
              exact hst
            have hb : (!(Link.new (strip_quotes t0) (strip_quotes t2)
                (strip_quotes t1)).is_feedback) = true := by
              revert hfb
              cases (Link.new (strip_quotes t0) (strip_quotes t2)
                (strip_quotes t1)).is_feedback <;> simp
            have hsh : (Link.new (strip_quotes t0) (strip_quotes t2)
                (strip_quotes t1)).to_shadow
                = some ⟨strip_quotes t2, strip_quotes t0, strip_quotes t1, none,
                    true⟩ := by
              unfold Link.to_shadow Link.new
              rw [if_neg hst]
            simp [hb, hsh, Link.new_is_shadow]

theorem flatMap_shadow_count (lines : List String) :
    ((lines.flatMap sif_line_links).filter (fun l => l.is_shadow)).length
      = (lines.filter (fun line =>
          match sif_tokens (strTrim line) with
          | [t0, _, t2] => strip_quotes t0 != strip_quotes t2
          | _ => false)).length := by
  induction lines with
  | nil => rfl
  | cons a as ih =>
    rw [List.flatMap_cons, List.filter_append, List.length_append, ih,
      List.filter_cons, sif_line_links_shadow a]
    by_cases hc : (match sif_tokens (strTrim a) with
        | [t0, _, t2] => strip_quotes t0 != strip_quotes t2
        | _ => false) = true
    · rw [if_pos hc, if_pos hc, List.length_cons]
      omega
    · rw [if_neg hc, if_neg hc]
      omega

theorem flatMap_regular_count (lines : List String) :
    ((lines.flatMap sif_line_links).filter (fun l => !l.is_shadow)).length
      = (lines.filter (fun line =>
          match sif_tokens (strTrim line) with
          | [_, _, _] => true
          | _ => false)).length := by
  induction lines with
  | nil => rfl
  | cons a as ih =>
    rw [List.flatMap_cons, List.filter_append, List.length_append, ih,
      List.filter_cons, sif_line_links_regular a]
    by_cases hc : (match sif_tokens (strTrim a) with
        | [_, _, _] => true
        | _ => false) = true
    · rw [if_pos hc, if_pos hc, List.length_cons]
      omega
    · rw [if_neg hc, if_neg hc]
      omega

/-- Counterexample to C6 as stated: the SIF parser itself appends an inline
shadow for the single edge line `A<tab>pp<tab>B`, so the parsed network
already contains a shadow link. -/
theorem claim_sif_parser_no_shadows_cx :
    (parse_lines_with_stats exSifLines).1.has_shadows = true := by
  decide

/-- C6 (amended): the SIF parser generates shadow links inline rather than
leaving them to `generate_shadows`: for every input, the parsed network's
link sequence is, line by line, the real link of each 3-token line followed
immediately by its shadow (absent for self-loops); consequently the shadow
count equals the number of non-self-loop 3-token lines and the regular link
count equals the number of 3-token lines.  Lone nodes are exactly the names
of the 1-token lines. -/
theorem claim_sif_parser_emits_inline_shadows (lines : List String) :
    (parse_lines_with_stats lines).1.links = lines.flatMap sif_line_links
    ∧ (parse_lines_with_stats lines).1.shadow_count
        = (lines.filter (fun line =>
            match sif_tokens (strTrim line) with
            | [t0, _, t2] => strip_quotes t0 != strip_quotes t2
            | _ => false)).length
    ∧ (parse_lines_with_stats lines).1.regular_link_count
        = (lines.filter (fun line =>
            match sif_tokens (strTrim line) with
            | [_, _, _] => true
            | _ => false)).length
    ∧ (∀ n, n ∈ (parse_lines_with_stats lines).1.lone_nodes
        ↔ n ∈ lines.flatMap sif_line_lone) := by
  obtain ⟨hlk, hln⟩ := foldl_sifStep_effect lines (ImportStats.new, [], [])
  have hP : (parse_lines_with_stats lines).1
      = ((lines.foldl sifStep (ImportStats.new, [], [])).2.2).foldl
          Network.add_lone_node
          (((lines.foldl sifStep (ImportStats.new, [], [])).2.1).foldl
            Network.add_link Network.init) := rfl
  have hlinks : (parse_lines_with_stats lines).1.links
      = lines.flatMap sif_line_links := by
    rw [hP, foldl_add_lone_links, foldl_add_link_links, hlk]
    rfl
  refine ⟨hlinks, ?_, ?_, ?_⟩
  · show ((parse_lines_with_stats lines).1.links.filter
        (fun l => l.is_shadow)).length = _
    rw [hlinks, flatMap_shadow_count]
  · show ((parse_lines_with_stats lines).1.links.filter
        (fun l => !l.is_shadow)).length = _
    rw [hlinks, flatMap_regular_count]
  · intro n
    rw [hP, foldl_add_lone_mem, hln,
      foldl_add_link_lone_nil _ Network.init rfl]
    simp

/-- C2 (code evaluated at the failing input): for `alignment = {a→y, b→z}`
with `perfect = {b→y, c→z}`, `AlignmentCycles::detect` traces the open
2-node chain `[a::y, b::z]` — it terminates because the next G1 node `c` is
unaligned in the main alignment (last conjunct), never returning to the
start — yet the placeholder classifier emits it as case 9
(`IncorrectCycle`) instead of case 7 (`PathPurpleBlue`). -/
theorem claim_cycle_path_collapsed_to_case9 :
    (AlignmentCycles.detect exAlignC2 (some exPerfectC2)).entries
        = [⟨CycleCase.IncorrectCycle, ["a::y", "b::z"]⟩]
    ∧ (AlignmentCycles.detect exAlignC2 (some exPerfectC2)).case_counts
        = [0, 0, 0, 0, 0, 0, 0, 0, 1]
    ∧ lookupKV exAlignC2 "c" = none := by
  decide

/-- Counterexample to C3 as stated: in the K3/K3 scenario the merged pair
`{a::x, c::}` is classified `HalfOrphanGraph1` (tag `pBb`), not
`InducedGraph1` — `c::` is a blue endpoint, and `InducedGraph1` requires
both endpoints purple (`merge.rs:319-328`). -/
theorem claim_k3_merge_cx :
    (MergedNetwork.from_alignment exG1K3 exG2K3 exAlignC3 none).toOption.map
        (fun m => m.edge_class "a::x" "c::")
      = some (some EdgeType.HalfOrphanGraph1)
    ∧ (MergedNetwork.from_alignment exG1K3 exG2K3 exAlignC3 none).toOption.map
        (fun m => m.edge_class "a::x" "c::")
      ≠ some (some EdgeType.InducedGraph1) := by
  decide

/-- C3 (amended): merging K3 on `{a,b,c}` with K3 on `{x,y,z}` under
`{a→x, b→y}` produces purple `a::x`, `b::y`, blue `c::`, red `::z`, and
classifies `{a::x, b::y}` as `Covered`, the two pairs with the blue
endpoint `c::` as `HalfOrphanGraph1` (not `InducedGraph1` as the claim
says), and the two pairs with the red endpoint `::z` as
`HalfUnalignedGraph2`. -/
theorem claim_k3_merge_amended :
    (MergedNetwork.from_alignment exG1K3 exG2K3 exAlignC3 none).toOption.map
        (fun m =>
          [getKV m.node_colors "a::x", getKV m.node_colors "b::y",
            getKV m.node_colors "c::", getKV m.node_colors "::z"])
      = some [some NodeColor.Purple, some NodeColor.Purple,
          some NodeColor.Blue, some NodeColor.Red]
    ∧ (MergedNetwork.from_alignment exG1K3 exG2K3 exAlignC3 none).toOption.map
        (fun m =>
          [m.edge_class "a::x" "b::y",
            m.edge_class "a::x" "c::", m.edge_class "b::y" "c::",
            m.edge_class "a::x" "::z", m.edge_class "b::y" "::z"])
      = some [some EdgeType.Covered,
          some EdgeType.HalfOrphanGraph1, some EdgeType.HalfOrphanGraph1,
          some EdgeType.HalfUnalignedGraph2, some EdgeType.HalfUnalignedGraph2] := by
  decide

theorem colon_split_inj (a : List Char) :
    ∀ (a' b b' : List Char), (∀ c ∈ a, c ≠ ':') → (∀ c ∈ a', c ≠ ':') →
      a ++ ':' :: ':' :: b = a' ++ ':' :: ':' :: b' → a = a' ∧ b = b' := by
  induction a with
  | nil =>
    intro a' b b' _ ha' h
    cases a' with
    | nil =>
      simp only [List.nil_append, List.cons.injEq, true_and] at h
      exact ⟨rfl, h⟩
    | cons x xs =>
      simp only [List.nil_append, List.cons_append, List.cons.injEq] at h
      exact absurd h.1.symm (ha' x (List.mem_cons_self x xs))
  | cons y ys ih =>
    intro a' b b' ha ha' h
    cases a' with
    | nil =>
      simp only [List.nil_append, List.cons_append, List.cons.injEq] at h
      exact absurd h.1 (ha y (List.mem_cons_self y ys))
    | cons x xs =>
      simp only [List.cons_append, List.cons.injEq] at h
      obtain ⟨hx, htail⟩ := h
      obtain ⟨h1, h2⟩ := ih xs b b'
        (fun c hc => ha c (List.mem_cons_of_mem y hc))
        (fun c hc => ha' c (List.mem_cons_of_mem x hc)) htail
      exact ⟨by rw [hx, h1], h2⟩

theorem mergedPairName_data (a b : String) :
    (mergedPairName a b).data = a.data ++ ':' :: ':' :: b.data := by
  show ((a ++ "::") ++ b).data = _
  rw [show ((a ++ "::") ++ b).data = a.data ++ "::".data ++ b.data from rfl,
    List.append_assoc]
  rfl

theorem blueName_data (a : String) : (blueName a).data = a.data ++ [':', ':'] := rfl

theorem redName_data (c : String) : (redName c).data = ':' :: ':' :: c.data := rfl

theorem mergedPairName_inj (a b a' b' : String)
    (ha : ∀ c ∈ a.data, c ≠ ':') (ha' : ∀ c ∈ a'.data, c ≠ ':')
    (h : mergedPairName a b = mergedPairName a' b') : a = a' ∧ b = b' := by
  have hd := congrArg String.data h
  rw [mergedPairName_data, mergedPairName_data] at hd
  obtain ⟨h1, h2⟩ := colon_split_inj a.data a'.data b.data b'.data ha ha' hd
  exact ⟨String.ext h1, String.ext h2⟩

theorem mergedPairName_ne_blueName (a b c : String) (hb : b.data ≠ [])
    (hbc : ∀ ch ∈ b.data, ch ≠ ':') : mergedPairName a b ≠ blueName c := by
  intro h
  have hd := congrArg String.data h
  rw [mergedPairName_data, blueName_data] at hd
  have hl : (a.data ++ ':' :: ':' :: b.data).getLast? = b.data.getLast? := by
    rw [List.getLast?_append_of_ne_nil _ (by simp)]
    rw [show (':' :: ':' :: b.data) = [':', ':'] ++ b.data from rfl,
      List.getLast?_append_of_ne_nil _ hb]
  have hr : (c.data ++ [':', ':']).getLast? = some ':' := by
    rw [List.getLast?_append_of_ne_nil _ (by simp)]
    rfl
  rw [hd, hr] at hl
  have hmem := List.mem_of_mem_getLast? hl.symm
  exact hbc _ hmem rfl

theorem mergedPairName_ne_redName (a b c : String) (hane : a.data ≠ [])
    (hac : ∀ ch ∈ a.data, ch ≠ ':') : mergedPairName a b ≠ redName c := by
  intro h
  have hd := congrArg String.data h
  rw [mergedPairName_data, redName_data] at hd
  have hh : (a.data ++ ':' :: ':' :: b.data).head? = a.data.head? := by
    rw [List.head?_append_of_ne_nil _ hane]
  rw [hd] at hh
  have hhd : a.data.head? = some ':' := by rw [← hh]; rfl
  exact hac ':' (List.mem_of_mem_head? hhd) rfl

theorem blueName_ne_redName (a c : String) (hane : a.data ≠ [])
    (hac : ∀ ch ∈ a.data, ch ≠ ':') : blueName a ≠ redName c := by
  intro h
  have hd := congrArg String.data h
  rw [blueName_data, redName_data] at hd
  have hh : (a.data ++ [':', ':']).head? = a.data.head? := by
    rw [List.head?_append_of_ne_nil _ hane]
  rw [hd] at hh
  have : a.data.head? = some ':' := by rw [← hh]; rfl
  exact hac ':' (List.mem_of_mem_head? this) rfl

theorem blueName_inj (a a' : String) (h : blueName a = blueName a') : a = a' := by
  have hd := congrArg String.data h
  rw [blueName_data, blueName_data] at hd
  exact String.ext (List.append_cancel_right hd)

theorem redName_inj (c c' : String) (h : redName c = redName c') : c = c' := by
  have hd := congrArg String.data h
  rw [redName_data, redName_data] at hd
  simp only [List.cons.injEq, true_and] at hd
  exact String.ext hd

theorem keysOf_putKV_mem {β : Type} (m : List (NodeId × β)) (k : NodeId) (v : β)
    (x : NodeId) : x ∈ keysOf (putKV m k v) ↔ x = k ∨ x ∈ keysOf m := by
  simp only [putKV, keysOf, List.map_cons, List.mem_cons, List.mem_map,
    List.mem_filter, bne_iff_ne, ne_eq, decide_not, Bool.not_eq_true',
    decide_eq_false_iff_not]
  constructor
  · rintro (rfl | ⟨p, ⟨hp, _⟩, rfl⟩)
    · exact Or.inl rfl
    · exact Or.inr ⟨p, hp, rfl⟩
  · rintro (rfl | ⟨p, hp, rfl⟩)
    · exact Or.inl rfl
    · by_cases hx : p.1 = k
      · exact Or.inl hx
      · exact Or.inr ⟨p, ⟨hp, hx⟩, rfl⟩

theorem putKV_fresh {β : Type} (m : List (NodeId × β)) (k : NodeId) (v : β)
    (h : k ∉ keysOf m) : putKV m k v = (k, v) :: m := by
  unfold putKV
  congr 1
  apply List.filter_eq_self.mpr
  intro p hp
  have hne : p.1 ≠ k := fun he => h (he ▸ List.mem_map_of_mem (fun p => p.1) hp)
  simpa [bne_iff_ne] using hne

theorem getKV_isSome_iff {β : Type} (m : List (NodeId × β)) (k : NodeId) :
    (getKV m k).isSome = true ↔ k ∈ keysOf m := by
  unfold getKV keysOf
  cases hfind : m.find? (fun q => q.1 == k) with
  | none =>
    have hall := List.find?_eq_none.mp hfind
    simp only [Option.map_none', Option.isSome_none, Bool.false_eq_true,
      false_iff, List.mem_map, not_exists]
    rintro p ⟨hp, he⟩
    exact hall p hp (by simp [he])
  | some p =>
    have hpk : p.1 = k := by simpa using List.find?_some hfind
    simp only [Option.map_some', Option.isSome_some, true_iff, List.mem_map]
    exact ⟨p, List.mem_of_find?_eq_some hfind, hpk⟩

theorem cntColor_putKV_fresh (m : List (NodeId × NodeColor)) (k : NodeId)
    (v : NodeColor) (c : NodeColor) (h : k ∉ keysOf m) :
    cntColor (putKV m k v) c = cntColor m c + (if v = c then 1 else 0) := by
  rw [putKV_fresh m k v h]
  unfold cntColor
  rw [List.filter_cons]
  by_cases hv : v = c
  · rw [if_pos (by simpa using hv), if_pos hv, List.length_cons]
  · rw [if_neg (by simpa using hv), if_neg hv]
    omega

theorem insertOnce_nodup (xs : List NodeId) (x : NodeId) (h : xs.Nodup) :
    (insertOnce xs x).Nodup := by
  unfold insertOnce
  by_cases hc : xs.contains x = true
  · rw [if_pos hc]; exact h
  · rw [if_neg hc]
    have hx : x ∉ xs := by simpa using hc
    simp [List.nodup_append, h, hx]

theorem foldl_preserve_nodup {α : Type} (f : List NodeId → α → List NodeId)
    (hf : ∀ acc x, acc.Nodup → (f acc x).Nodup) :
    ∀ (l : List α) (acc : List NodeId), acc.Nodup → (l.foldl f acc).Nodup := by
  intro l
  induction l with
  | nil => intro acc h; exact h
  | cons a as ih => intro acc h; exact ih _ (hf acc a h)

theorem collectEndpointNodes_nodup (g : Network) : (collectEndpointNodes g).Nodup := by
  unfold collectEndpointNodes
  apply foldl_preserve_nodup
  · intro acc x h
    exact insertOnce_nodup _ _ h
  · apply foldl_preserve_nodup
    · intro acc l h
      exact insertOnce_nodup _ _ (insertOnce_nodup _ _ h)
    · exact List.nodup_nil

theorem filter_mem_length (N S : List NodeId) (hN : N.Nodup) (hS : S.Nodup)
    (hsub : ∀ s ∈ S, s ∈ N) :
    (N.filter (fun n => decide (n ∈ S))).length = S.length := by
  have h1 : (N.filter (fun n => decide (n ∈ S))).Nodup := hN.filter _
  have h2 : (N.filter (fun n => decide (n ∈ S))).toFinset = S.toFinset := by
    ext x
    simp only [List.mem_toFinset, List.mem_filter, decide_eq_true_eq]
    exact ⟨fun hx => hx.2, fun hx => ⟨hsub x hx, hx⟩⟩
  rw [← List.toFinset_card_of_nodup h1, h2, List.toFinset_card_of_nodup hS]

theorem filter_not_length {α : Type} (N : List α) (p : α → Bool) :
    (N.filter (fun a => !(p a))).length = N.length - (N.filter p).length := by
  induction N with
  | nil => rfl
  | cons a as ih =>
    have hle : (as.filter p).length ≤ as.length := List.length_filter_le _ _
    cases hp : p a with
    | true =>
      rw [List.filter_cons, List.filter_cons, hp]
      rw [if_neg (show ¬((!true) = true) by simp), if_pos (show (true = true) from rfl),
        ih, List.length_cons, List.length_cons]
      omega
    | false =>
      rw [List.filter_cons, List.filter_cons, hp]
      rw [if_pos (show (!false) = true from rfl), if_neg (show ¬(false = true) by simp),
        List.length_cons, List.length_cons, ih]
      omega

theorem bool_eq_of_iff {a b : Bool} (h : a = true ↔ b = true) : a = b := by
  cases a <;> cases b <;> simp_all

theorem mergeStep1a_node_colors (perfect : Option (List (NodeId × NodeId)))
    (acc : MergeAcc) (q : NodeId × NodeId) :
    (mergeStep1a perfect acc q).node_colors
      = putKV acc.node_colors (mergedPairName q.1 q.2) NodeColor.Purple := rfl

theorem mergeStep1a_g1 (perfect : Option (List (NodeId × NodeId)))
    (acc : MergeAcc) (q : NodeId × NodeId) :
    (mergeStep1a perfect acc q).g1_to_merged
      = putKV acc.g1_to_merged q.1 (mergedPairName q.1 q.2) := rfl

theorem mergeStep1a_g2 (perfect : Option (List (NodeId × NodeId)))
    (acc : MergeAcc) (q : NodeId × NodeId) :
    (mergeStep1a perfect acc q).g2_to_merged
      = putKV acc.g2_to_merged q.2 (mergedPairName q.1 q.2) := rfl

theorem mergeStep1a_mtc (perfect : Option (List (NodeId × NodeId)))
    (acc : MergeAcc) (q : NodeId × NodeId) :
    (mergeStep1a perfect acc q).merged_to_correct.isSome
      = acc.merged_to_correct.isSome := by
  show (match acc.merged_to_correct with
    | some m => some (putKV m (mergedPairName q.1 q.2)
        (((perfect.bind (fun p => getKV p q.1)).map (fun pg2 => pg2 == q.2)).getD false))
    | none => none).isSome = acc.merged_to_correct.isSome
  cases acc.merged_to_correct <;> rfl

theorem fold1a_spec (perfect : Option (List (NodeId × NodeId))) :
    ∀ (A : List (NodeId × NodeId)) (acc : MergeAcc),
      (A.map (fun q => mergedPairName q.1 q.2)).Nodup →
      (∀ q ∈ A, mergedPairName q.1 q.2 ∉ keysOf acc.node_colors) →
      (∀ c, cntColor ((A.foldl (mergeStep1a perfect) acc).node_colors) c
          = cntColor acc.node_colors c
            + (if NodeColor.Purple = c then A.length else 0))
      ∧ (∀ x, x ∈ keysOf (A.foldl (mergeStep1a perfect) acc).node_colors
          ↔ x ∈ A.map (fun q => mergedPairName q.1 q.2)
            ∨ x ∈ keysOf acc.node_colors)
      ∧ (∀ x, x ∈ keysOf (A.foldl (mergeStep1a perfect) acc).g1_to_merged
          ↔ x ∈ A.map (fun q => q.1) ∨ x ∈ keysOf acc.g1_to_merged)
      ∧ (∀ x, x ∈ keysOf (A.foldl (mergeStep1a perfect) acc).g2_to_merged
          ↔ x ∈ A.map (fun q => q.2) ∨ x ∈ keysOf acc.g2_to_merged)
      ∧ (A.foldl (mergeStep1a perfect) acc).merged_to_correct.isSome
          = acc.merged_to_correct.isSome := by
  intro A
  induction A with
  | nil =>
    intro acc _ _
    exact ⟨fun c => by by_cases hc : NodeColor.Purple = c <;> simp [hc],
      fun x => by simp, fun x => by simp, fun x => by simp, rfl⟩
  | cons q A ih =>
    intro acc hnodup hdisj
    rw [List.map_cons] at hnodup
    have hnodup' := List.nodup_cons.mp hnodup
    rw [List.foldl_cons]
    have hfresh : mergedPairName q.1 q.2 ∉ keysOf acc.node_colors :=
      hdisj q (List.mem_cons_self q A)
    have hdisj' : ∀ r ∈ A, mergedPairName r.1 r.2
        ∉ keysOf (mergeStep1a perfect acc q).node_colors := by
      intro r hr hmem
      rw [mergeStep1a_node_colors, keysOf_putKV_mem] at hmem
      rcases hmem with he | hm
      · exact hnodup'.1 (he ▸ List.mem_map_of_mem (fun r => mergedPairName r.1 r.2) hr)
      · exact hdisj r (List.mem_cons_of_mem q hr) hm
    obtain ⟨ihcnt, ihkeys, ihg1, ihg2, ihmtc⟩ :=
      ih (mergeStep1a perfect acc q) hnodup'.2 hdisj'
    refine ⟨?_, ?_, ?_, ?_, ?_⟩
    · intro c
      rw [ihcnt c, mergeStep1a_node_colors, cntColor_putKV_fresh _ _ _ _ hfresh]
      by_cases hc : NodeColor.Purple = c <;> simp [hc] <;> omega
    · intro x
      rw [ihkeys x, mergeStep1a_node_colors]
      simp only [keysOf_putKV_mem, List.map_cons, List.mem_cons]
      tauto
    · intro x
      rw [ihg1 x, mergeStep1a_g1]
      simp only [keysOf_putKV_mem, List.map_cons, List.mem_cons]
      tauto
    · intro x
      rw [ihg2 x, mergeStep1a_g2]
      simp only [keysOf_putKV_mem, List.map_cons, List.mem_cons]
      tauto
    · rw [ihmtc, mergeStep1a_mtc]

theorem mergeStep1b_skip (perfect : Option (List (NodeId × NodeId)))
    (acc : MergeAcc) (n : NodeId) (h : (getKV acc.g1_to_merged n).isSome = true) :
    mergeStep1b perfect acc n = acc := by
  unfold mergeStep1b
  rw [if_pos h]

theorem mergeStep1b_node_colors (perfect : Option (List (NodeId × NodeId)))
    (acc : MergeAcc) (n : NodeId)
    (h : ¬ (getKV acc.g1_to_merged n).isSome = true) :
    (mergeStep1b perfect acc n).node_colors
      = putKV acc.node_colors (blueName n) NodeColor.Blue := by
  unfold mergeStep1b
  rw [if_neg h]
  rfl

theorem mergeStep1b_g1 (perfect : Option (List (NodeId × NodeId)))
    (acc : MergeAcc) (n : NodeId)
    (h : ¬ (getKV acc.g1_to_merged n).isSome = true) :
    (mergeStep1b perfect acc n).g1_to_merged
      = putKV acc.g1_to_merged n (blueName n) := by
  unfold mergeStep1b
  rw [if_neg h]
  rfl

theorem mergeStep1b_g2 (perfect : Option (List (NodeId × NodeId)))
    (acc : MergeAcc) (n : NodeId) :
    (mergeStep1b perfect acc n).g2_to_merged = acc.g2_to_merged := by
  unfold mergeStep1b
  split <;> rfl

theorem mergeStep1b_mtc (perfect : Option (List (NodeId × NodeId)))
    (acc : MergeAcc) (n : NodeId) :
    (mergeStep1b perfect acc n).merged_to_correct.isSome
      = acc.merged_to_correct.isSome := by
  unfold mergeStep1b
  split
  · rfl
  · cases hm : acc.merged_to_correct <;> simp only [hm] <;> rfl

theorem fold1b_spec (perfect : Option (List (NodeId × NodeId))) :
    ∀ (N : List NodeId) (acc : MergeAcc),
      N.Nodup →
      (∀ n ∈ N, blueName n ∉ keysOf acc.node_colors) →
      (∀ c, cntColor ((N.foldl (mergeStep1b perfect) acc).node_colors) c
          = cntColor acc.node_colors c
            + (if NodeColor.Blue = c then
                (N.filter (fun m => !(getKV acc.g1_to_merged m).isSome)).length
              else 0))
      ∧ (∀ x, x ∈ keysOf (N.foldl (mergeStep1b perfect) acc).node_colors
          ↔ x ∈ (N.filter
              (fun m => !(getKV acc.g1_to_merged m).isSome)).map blueName
            ∨ x ∈ keysOf acc.node_colors)
      ∧ (∀ x, x ∈ keysOf (N.foldl (mergeStep1b perfect) acc).g1_to_merged
          ↔ x ∈ N ∨ x ∈ keysOf acc.g1_to_merged)
      ∧ (N.foldl (mergeStep1b perfect) acc).g2_to_merged = acc.g2_to_merged
      ∧ (N.foldl (mergeStep1b perfect) acc).merged_to_correct.isSome
          = acc.merged_to_correct.isSome := by
  intro N
  induction N with
  | nil =>
    intro acc _ _
    exact ⟨fun c => by by_cases hc : NodeColor.Blue = c <;> simp [hc],
      fun x => by simp, fun x => by simp, rfl, rfl⟩
  | cons n N ih =>
    intro acc hnodup hfr
    have hnodup' := List.nodup_cons.mp hnodup
    rw [List.foldl_cons]
    by_cases hsk : (getKV acc.g1_to_merged n).isSome = true
    · rw [mergeStep1b_skip perfect acc n hsk]
      obtain ⟨ihcnt, ihkeys, ihg1, ihg2, ihmtc⟩ :=
        ih acc hnodup'.2 (fun t ht => hfr t (List.mem_cons_of_mem n ht))
      have hfilt : (n :: N).filter (fun m => !(getKV acc.g1_to_merged m).isSome)
          = N.filter (fun m => !(getKV acc.g1_to_merged m).isSome) := by
        rw [List.filter_cons, if_neg (by simp [hsk])]
      have hn : n ∈ keysOf acc.g1_to_merged := (getKV_isSome_iff _ _).mp hsk
      refine ⟨?_, ?_, ?_, ihg2, ihmtc⟩
      · intro c
        rw [ihcnt c, hfilt]
      · intro x
        rw [ihkeys x, hfilt]
      · intro x
        rw [ihg1 x]
        simp only [List.mem_cons]
        constructor
        · rintro (h | h)
          · exact Or.inl (Or.inr h)
          · exact Or.inr h
        · rintro ((rfl | h) | h)
          · exact Or.inr hn
          · exact Or.inl h
          · exact Or.inr h
    · have hnc := mergeStep1b_node_colors perfect acc n hsk
      have hg1 := mergeStep1b_g1 perfect acc n hsk
      have hg2 := mergeStep1b_g2 perfect acc n
      have hmtc := mergeStep1b_mtc perfect acc n
      have hfrn : blueName n ∉ keysOf acc.node_colors :=
        hfr n (List.mem_cons_self n N)
      have hfr' : ∀ t ∈ N,
          blueName t ∉ keysOf (mergeStep1b perfect acc n).node_colors := by
        intro t ht hmem
        rw [hnc, keysOf_putKV_mem] at hmem
        rcases hmem with he | hm
        · exact hnodup'.1 (blueName_inj t n he ▸ ht)
        · exact hfr t (List.mem_cons_of_mem n ht) hm
      obtain ⟨ihcnt, ihkeys, ihg1, ihg2, ihmtc2⟩ :=
        ih (mergeStep1b perfect acc n) hnodup'.2 hfr'
      have hptrans : N.filter
            (fun m => !(getKV (mergeStep1b perfect acc n).g1_to_merged m).isSome)
          = N.filter (fun m => !(getKV acc.g1_to_merged m).isSome) := by
        apply List.filter_congr
        intro t ht
        have htn : t ≠ n := fun he => hnodup'.1 (he ▸ ht)
        congr 1
        apply bool_eq_of_iff
        rw [getKV_isSome_iff, getKV_isSome_iff, hg1, keysOf_putKV_mem]
        constructor
        · rintro (he | hm)
          · exact absurd he htn
          · exact hm
        · exact Or.inr
      have hfiltc : (n :: N).filter (fun m => !(getKV acc.g1_to_merged m).isSome)
          = n :: N.filter (fun m => !(getKV acc.g1_to_merged m).isSome) := by
        rw [List.filter_cons, if_pos (by simp [hsk])]
      refine ⟨?_, ?_, ?_, ?_, ?_⟩
      · intro c
        rw [ihcnt c, hptrans, hnc, cntColor_putKV_fresh _ _ _ _ hfrn, hfiltc]
        by_cases hc : NodeColor.Blue = c <;> simp [hc] <;> omega
      · intro x
        rw [ihkeys x, hptrans, hnc, hfiltc]
        simp only [keysOf_putKV_mem, List.map_cons, List.mem_cons]
        tauto
      · intro x
        rw [ihg1 x, hg1]
        simp only [keysOf_putKV_mem, List.mem_cons]
        tauto
      · rw [ihg2, hg2]
      · rw [ihmtc2, hmtc]

theorem mergeStep1c_skip (acc : MergeAcc) (n : NodeId)
    (h : (getKV acc.g2_to_merged n).isSome = true) :
    mergeStep1c acc n = acc := by
  unfold mergeStep1c
  rw [if_pos h]

theorem mergeStep1c_node_colors (acc : MergeAcc) (n : NodeId)
    (h : ¬ (getKV acc.g2_to_merged n).isSome = true) :
    (mergeStep1c acc n).node_colors
      = putKV acc.node_colors (redName n) NodeColor.Red := by
  unfold mergeStep1c
  rw [if_neg h]
  rfl

theorem mergeStep1c_g2 (acc : MergeAcc) (n : NodeId)
    (h : ¬ (getKV acc.g2_to_merged n).isSome = true) :
    (mergeStep1c acc n).g2_to_merged
      = putKV acc.g2_to_merged n (redName n) := by
  unfold mergeStep1c
  rw [if_neg h]
  rfl

theorem mergeStep1c_g1 (acc : MergeAcc) (n : NodeId) :
    (mergeStep1c acc n).g1_to_merged = acc.g1_to_merged := by
  unfold mergeStep1c
  split <;> rfl

theorem mergeStep1c_mtc (acc : MergeAcc) (n : NodeId) :
    (mergeStep1c acc n).merged_to_correct = acc.merged_to_correct := by
  unfold mergeStep1c
  split <;> rfl

theorem fold1c_spec :
    ∀ (N : List NodeId) (acc : MergeAcc),
      N.Nodup →
      (∀ n ∈ N, redName n ∉ keysOf acc.node_colors) →
      (∀ c, cntColor ((N.foldl mergeStep1c acc).node_colors) c
          = cntColor acc.node_colors c
            + (if NodeColor.Red = c then
                (N.filter (fun m => !(getKV acc.g2_to_merged m).isSome)).length
              else 0))
      ∧ (∀ x, x ∈ keysOf (N.foldl mergeStep1c acc).node_colors
          ↔ x ∈ (N.filter
              (fun m => !(getKV acc.g2_to_merged m).isSome)).map redName
            ∨ x ∈ keysOf acc.node_colors)
      ∧ (∀ x, x ∈ keysOf (N.foldl mergeStep1c acc).g2_to_merged
          ↔ x ∈ N ∨ x ∈ keysOf acc.g2_to_merged)
      ∧ (N.foldl mergeStep1c acc).g1_to_merged = acc.g1_to_merged
      ∧ (N.foldl mergeStep1c acc).merged_to_correct
          = acc.merged_to_correct := by
  intro N
  induction N with
  | nil =>
    intro acc _ _
    exact ⟨fun c => by by_cases hc : NodeColor.Red = c <;> simp [hc],
      fun x => by simp, fun x => by simp, rfl, rfl⟩
  | cons n N ih =>
    intro acc hnodup hfr
    have hnodup' := List.nodup_cons.mp hnodup
    rw [List.foldl_cons]
    by_cases hsk : (getKV acc.g2_to_merged n).isSome = true
    · rw [mergeStep1c_skip acc n hsk]
      obtain ⟨ihcnt, ihkeys, ihg2, ihg1, ihmtc⟩ :=
        ih acc hnodup'.2 (fun t ht => hfr t (List.mem_cons_of_mem n ht))
      have hfilt : (n :: N).filter (fun m => !(getKV acc.g2_to_merged m).isSome)
          = N.filter (fun m => !(getKV acc.g2_to_merged m).isSome) := by
        rw [List.filter_cons, if_neg (by simp [hsk])]
      have hn : n ∈ keysOf acc.g2_to_merged := (getKV_isSome_iff _ _).mp hsk
      refine ⟨?_, ?_, ?_, ihg1, ihmtc⟩
      · intro c
        rw [ihcnt c, hfilt]
      · intro x
        rw [ihkeys x, hfilt]
      · intro x
        rw [ihg2 x]
        simp only [List.mem_cons]
        constructor
        · rintro (h | h)
          · exact Or.inl (Or.inr h)
          · exact Or.inr h
        · rintro ((rfl | h) | h)
          · exact Or.inr hn
          · exact Or.inl h
          · exact Or.inr h
    · have hnc := mergeStep1c_node_colors acc n hsk
      have hg2 := mergeStep1c_g2 acc n hsk
      have hg1 := mergeStep1c_g1 acc n
      have hmtc := mergeStep1c_mtc acc n
      have hfrn : redName n ∉ keysOf acc.node_colors :=
        hfr n (List.mem_cons_self n N)
      have hfr' : ∀ t ∈ N,
          redName t ∉ keysOf (mergeStep1c acc n).node_colors := by
        intro t ht hmem
        rw [hnc, keysOf_putKV_mem] at hmem
        rcases hmem with he | hm
        · exact hnodup'.1 (redName_inj t n he ▸ ht)
        · exact hfr t (List.mem_cons_of_mem n ht) hm
      obtain ⟨ihcnt, ihkeys, ihg2, ihg1, ihmtc2⟩ :=
        ih (mergeStep1c acc n) hnodup'.2 hfr'
      have hptrans : N.filter
            (fun m => !(getKV (mergeStep1c acc n).g2_to_merged m).isSome)
          = N.filter (fun m => !(getKV acc.g2_to_merged m).isSome) := by
        apply List.filter_congr
        intro t ht
        have htn : t ≠ n := fun he => hnodup'.1 (he ▸ ht)
        congr 1
        apply bool_eq_of_iff
        rw [getKV_isSome_iff, getKV_isSome_iff, hg2, keysOf_putKV_mem]
        constructor
        · rintro (he | hm)
          · exact absurd he htn
          · exact hm
        · exact Or.inr
      have hfiltc : (n :: N).filter (fun m => !(getKV acc.g2_to_merged m).isSome)
          = n :: N.filter (fun m => !(getKV acc.g2_to_merged m).isSome) := by
        rw [List.filter_cons, if_pos (by simp [hsk])]
      refine ⟨?_, ?_, ?_, ?_, ?_⟩
      · intro c
        rw [ihcnt c, hptrans, hnc, cntColor_putKV_fresh _ _ _ _ hfrn, hfiltc]
        by_cases hc : NodeColor.Red = c <;> simp [hc] <;> omega
      · intro x
        rw [ihkeys x, hptrans, hnc, hfiltc]
        simp only [keysOf_putKV_mem, List.map_cons, List.mem_cons]
        tauto
      · intro x
        rw [ihg2 x, hg2]
        simp only [keysOf_putKV_mem, List.mem_cons]
        tauto
      · rw [ihg1, hg1]
      · rw [ihmtc2, hmtc]

theorem mergeAddLone_links (mp : List (NodeId × NodeId)) (L : List NodeId) :
    ∀ (net : Network), (mergeAddLone mp L net).links = net.links := by
  unfold mergeAddLone
  induction L with
  | nil => intro net; rfl
  | cons x L ih =>
    intro net
    rw [List.foldl_cons, ih]
    cases h : getKV mp x with
    | none => rfl
    | some a => exact add_lone_node_links net a

theorem emitPair_balanced (acc : Network × List EdgeType) (s t : NodeId)
    (e : EdgeType) (h : acc.1.links.length = acc.2.length) :
    (emitPair acc s t e).1.links.length = (emitPair acc s t e).2.length := by
  unfold emitPair
  by_cases hst : s ≠ t <;> simp [hst, add_link_links, h]

theorem foldl_balanced
    (g : Network × List EdgeType → NodeId × NodeId → Network × List EdgeType)
    (hg : ∀ acc p, acc.1.links.length = acc.2.length →
      (g acc p).1.links.length = (g acc p).2.length) :
    ∀ (L : List (NodeId × NodeId)) (acc : Network × List EdgeType),
      acc.1.links.length = acc.2.length →
      (L.foldl g acc).1.links.length = (L.foldl g acc).2.length := by
  intro L
  induction L with
  | nil => intro acc h; exact h
  | cons p L ih =>
    intro acc h
    rw [List.foldl_cons]
    exact ih _ (hg acc p h)

theorem mergeEmitG2_balanced (es : List (NodeId × NodeId)) (ans : List NodeId)
    (L : List (NodeId × NodeId)) :
    (mergeEmitG2 es ans L).1.links.length = (mergeEmitG2 es ans L).2.length := by
  unfold mergeEmitG2
  exact foldl_balanced _ (fun acc p h => emitPair_balanced acc p.1 p.2 _ h) L _ rfl

theorem mergeEmitG1_balanced (es : List (NodeId × NodeId)) (ans : List NodeId)
    (L : List (NodeId × NodeId)) (start : Network × List EdgeType)
    (h : start.1.links.length = start.2.length) :
    (mergeEmitG1 es ans L start).1.links.length
      = (mergeEmitG1 es ans L start).2.length := by
  unfold mergeEmitG1
  refine foldl_balanced _ ?_ L start h
  intro acc p hb
  by_cases hc : es.contains (normPair p) = true
  · rw [if_pos hc]
    exact hb
  · rw [if_neg hc]
    exact emitPair_balanced acc p.1 p.2 _ hb

theorem mergeNodePhase_spec (g1 g2 : Network) (A : List (NodeId × NodeId))
    (P : Option (List (NodeId × NodeId)))
    (halign1 : (A.map (fun q => q.1)).Nodup)
    (halign2 : (A.map (fun q => q.2)).Nodup)
    (hdom : ∀ q ∈ A, q.1 ∈ collectEndpointNodes g1)
    (hran : ∀ q ∈ A, q.2 ∈ collectEndpointNodes g2)
    (hgood1 : ∀ n ∈ collectEndpointNodes g1, goodName n)
    (hgood2 : ∀ n ∈ collectEndpointNodes g2, goodName n) :
    cntColor (mergeNodePhase g1 g2 A P).node_colors NodeColor.Purple = A.length
    ∧ cntColor (mergeNodePhase g1 g2 A P).node_colors NodeColor.Blue
        = (collectEndpointNodes g1).length - A.length
    ∧ cntColor (mergeNodePhase g1 g2 A P).node_colors NodeColor.Red
        = (collectEndpointNodes g2).length - A.length
    ∧ A.length ≤ (collectEndpointNodes g1).length
    ∧ A.length ≤ (collectEndpointNodes g2).length
    ∧ (mergeNodePhase g1 g2 A P).merged_to_correct.isSome = P.isSome := by
  simp only [mergeNodePhase]
  set N1 := collectEndpointNodes g1 with hN1def
  set N2 := collectEndpointNodes g2 with hN2def
  have hN1nodup : N1.Nodup := collectEndpointNodes_nodup g1
  have hN2nodup : N2.Nodup := collectEndpointNodes_nodup g2
  have hgoodA1 : ∀ q ∈ A, goodName q.1 := fun q hq => hgood1 q.1 (hdom q hq)
  have hgoodA2 : ∀ q ∈ A, goodName q.2 := fun q hq => hgood2 q.2 (hran q hq)
  have hAnodup : A.Nodup := halign1.of_map
  have hpids : (A.map (fun q => mergedPairName q.1 q.2)).Nodup := by
    refine List.Nodup.map_on ?_ hAnodup
    intro q hq r hr he
    obtain ⟨h1, h2⟩ := mergedPairName_inj q.1 q.2 r.1 r.2
      (hgoodA1 q hq).2 (hgoodA1 r hr).2 he
    exact Prod.ext h1 h2
  obtain ⟨cnt1, keys1, kg1_1, kg2_1, mtc1⟩ :=
    fold1a_spec P A ⟨[], [], if P.isSome then some [] else none, [], []⟩
      hpids (fun q _ => List.not_mem_nil _)
  set acc1 := A.foldl (mergeStep1a P)
    ⟨[], [], if P.isSome then some [] else none, [], []⟩ with hacc1
  have hfr1 : ∀ n ∈ N1, blueName n ∉ keysOf acc1.node_colors := by
    intro n _ hmem
    rcases (keys1 _).mp hmem with hp | hnil
    · obtain ⟨q, hq, he⟩ := List.mem_map.mp hp
      exact mergedPairName_ne_blueName q.1 q.2 n
        (hgoodA2 q hq).1 (hgoodA2 q hq).2 he
    · exact List.not_mem_nil _ hnil
  obtain ⟨cnt2, keys2, kg1_2, g2eq2, mtc2⟩ := fold1b_spec P N1 acc1 hN1nodup hfr1
  set acc2 := N1.foldl (mergeStep1b P) acc1 with hacc2
  have hfr2 : ∀ n ∈ N2, redName n ∉ keysOf acc2.node_colors := by
    intro n _ hmem
    rcases (keys2 _).mp hmem with hb | hrest
    · obtain ⟨b, hbmem, he⟩ := List.mem_map.mp hb
      have hbN1 : b ∈ N1 := (List.mem_filter.mp hbmem).1
      exact blueName_ne_redName b n (hgood1 b hbN1).1 (hgood1 b hbN1).2 he
    · rcases (keys1 _).mp hrest with hp | hnil
      · obtain ⟨q, hq, he⟩ := List.mem_map.mp hp
        exact mergedPairName_ne_redName q.1 q.2 n
          (hgoodA1 q hq).1 (hgoodA1 q hq).2 he
      · exact List.not_mem_nil _ hnil
  obtain ⟨cnt3, keys3, kg2_3, g1eq3, mtc3⟩ := fold1c_spec N2 acc2 hN2nodup hfr2
  set acc3 := N2.foldl mergeStep1c acc2 with hacc3
  have hD1sub : ∀ s ∈ A.map (fun q => q.1), s ∈ N1 := by
    intro s hs
    obtain ⟨q, hq, rfl⟩ := List.mem_map.mp hs
    exact hdom q hq
  have hD2sub : ∀ s ∈ A.map (fun q => q.2), s ∈ N2 := by
    intro s hs
    obtain ⟨q, hq, rfl⟩ := List.mem_map.mp hs
    exact hran q hq
  have hlenB : (N1.filter (fun mm => !(getKV acc1.g1_to_merged mm).isSome)).length
      = N1.length - A.length := by
    have hpred : ∀ n ∈ N1,
        (!(getKV acc1.g1_to_merged n).isSome)
          = (!(decide (n ∈ A.map (fun q => q.1)))) := by
      intro n _
      congr 1
      apply bool_eq_of_iff
      rw [getKV_isSome_iff, kg1_1 n]
      simp [keysOf]
    rw [List.filter_congr hpred, filter_not_length,
      filter_mem_length N1 (A.map (fun q => q.1)) hN1nodup halign1 hD1sub,
      List.length_map]
  have hlenR : (N2.filter (fun mm => !(getKV acc2.g2_to_merged mm).isSome)).length
      = N2.length - A.length := by
    have hpred : ∀ n ∈ N2,
        (!(getKV acc2.g2_to_merged n).isSome)
          = (!(decide (n ∈ A.map (fun q => q.2)))) := by
      intro n _
      congr 1
      apply bool_eq_of_iff
      rw [getKV_isSome_iff, g2eq2, kg2_1 n]
      simp [keysOf]
    rw [List.filter_congr hpred, filter_not_length,
      filter_mem_length N2 (A.map (fun q => q.2)) hN2nodup halign2 hD2sub,
      List.length_map]
  have hAleN1 : A.length ≤ N1.length := by
    have h1 := filter_mem_length N1 (A.map (fun q => q.1)) hN1nodup halign1 hD1sub
    have h2 := List.length_filter_le
      (fun n => decide (n ∈ A.map (fun q => q.1))) N1
    rw [h1, List.length_map] at h2
    exact h2
  have hAleN2 : A.length ≤ N2.length := by
    have h1 := filter_mem_length N2 (A.map (fun q => q.2)) hN2nodup halign2 hD2sub
    have h2 := List.length_filter_le
      (fun n => decide (n ∈ A.map (fun q => q.2))) N2
    rw [h1, List.length_map] at h2
    exact h2
  refine ⟨?_, ?_, ?_, hAleN1, hAleN2, ?_⟩
  · rw [cnt3 NodeColor.Purple, cnt2 NodeColor.Purple, cnt1 NodeColor.Purple]
    simp [cntColor]
  · rw [cnt3 NodeColor.Blue, cnt2 NodeColor.Blue, cnt1 NodeColor.Blue, hlenB]
    simp [cntColor]
  · rw [cnt3 NodeColor.Red, cnt2 NodeColor.Red, cnt1 NodeColor.Red, hlenR]
    simp [cntColor]
  · rw [mtc3, mtc2, mtc1]
    cases P <;> rfl

/-- **C4** (corrected): the spec asserts the `MergedNetwork` count and
presence invariants for *every* result of `from_alignment`, but the Purple
count equals the number of alignment entries regardless of whether those
entries name actual G1/G2 nodes, so the Blue+Purple = `g1_node_count` and
Red+Purple = `g2_node_count` equations fail for alignments mentioning
foreign nodes (see the counterexample), and the string-keyed maps can
collide when node names contain `:`.  Amended: under an injective
alignment whose domain lies in G1's collected node set and whose range
lies in G2's collected node set, with all node names non-empty and
colon-free, every successfully produced `MergedNetwork` satisfies:
Purple count = `aligned_count`, Blue + Purple = `g1_node_count`,
Red + Purple = `g2_node_count`, one `edge_types` entry per link of the
merged network (shadows included), and `merged_to_correct` present iff a
perfect alignment was supplied. -/
theorem claim_merged_network_invariants
    (g1 g2 : Network) (alignment : List (NodeId × NodeId))
    (perfect : Option (List (NodeId × NodeId))) (m : MergedNetwork)
    (halign1 : (alignment.map (fun q => q.1)).Nodup)
    (halign2 : (alignment.map (fun q => q.2)).Nodup)
    (hdom : ∀ q ∈ alignment, q.1 ∈ collectEndpointNodes g1)
    (hran : ∀ q ∈ alignment, q.2 ∈ collectEndpointNodes g2)
    (hgood1 : ∀ n ∈ collectEndpointNodes g1, goodName n)
    (hgood2 : ∀ n ∈ collectEndpointNodes g2, goodName n)
    (hok : MergedNetwork.from_alignment g1 g2 alignment perfect = Except.ok m) :
    m.count_by_color NodeColor.Purple = m.aligned_count
    ∧ m.count_by_color NodeColor.Blue + m.count_by_color NodeColor.Purple
        = m.g1_node_count
    ∧ m.count_by_color NodeColor.Red + m.count_by_color NodeColor.Purple
        = m.g2_node_count
    ∧ m.edge_types.length = m.network.links.length
    ∧ m.merged_to_correct.isSome = perfect.isSome := by
  obtain ⟨hP, hB, hR, hle1, hle2, hmtc⟩ :=
    mergeNodePhase_spec g1 g2 alignment perfect halign1 halign2 hdom hran
      hgood1 hgood2
  simp only [MergedNetwork.from_alignment] at hok
  cases h1 : translateLinks (mergeNodePhase g1 g2 alignment perfect).g1_to_merged
      "G1" g1.links [] [] with
  | error e =>
    rw [h1] at hok
    exact Except.noConfusion hok
  | ok nl1 =>
    rw [h1] at hok
    cases h2 : translateLinks
        (mergeNodePhase g1 g2 alignment perfect).g2_to_merged
        "G2" g2.links [] [] with
    | error e =>
      rw [h2] at hok
      exact Except.noConfusion hok
    | ok nl2 =>
      rw [h2] at hok
      have hm := Except.ok.inj hok
      subst hm
      refine ⟨?_, ?_, ?_, ?_, ?_⟩
      · exact hP
      · show cntColor (mergeNodePhase g1 g2 alignment perfect).node_colors
            NodeColor.Blue
          + cntColor (mergeNodePhase g1 g2 alignment perfect).node_colors
            NodeColor.Purple
          = (collectEndpointNodes g1).length
        rw [hB, hP]
        omega
      · show cntColor (mergeNodePhase g1 g2 alignment perfect).node_colors
            NodeColor.Red
          + cntColor (mergeNodePhase g1 g2 alignment perfect).node_colors
            NodeColor.Purple
          = (collectEndpointNodes g2).length
        rw [hR, hP]
        omega
      · dsimp only
        rw [mergeAddLone_links, mergeAddLone_links]
        exact (mergeEmitG1_balanced _ _ _ _ (mergeEmitG2_balanced _ _ _)).symm
      · exact hmtc

/-- **C4** counterexample to the unconditional claim: with empty input
networks and the alignment `{a→x}`, `from_alignment` succeeds with one
Purple node, so Blue + Purple = 1, yet `g1_node_count` = 0. -/
theorem claim_merged_network_invariants_cx :
    ((MergedNetwork.from_alignment Network.init Network.init
        [("a", "x")] none).toOption.map
      (fun m => (m.count_by_color NodeColor.Blue
          + m.count_by_color NodeColor.Purple, m.g1_node_count)))
      = some (1, 0)
    ∧ (1 : Nat) ≠ 0 := by
  exact ⟨by decide, by decide⟩

/-- Witness for the amended C4 invariants on the K3/K3 scenario. -/
theorem claim_merged_network_invariants_witness :
    (([("a", "x"), ("b", "y")].map
        (fun (q : NodeId × NodeId) => q.1)).Nodup
      ∧ ([("a", "x"), ("b", "y")].map
        (fun (q : NodeId × NodeId) => q.2)).Nodup
      ∧ (∀ q ∈ ([("a", "x"), ("b", "y")] : List (NodeId × NodeId)),
          q.1 ∈ collectEndpointNodes exG1K3)
      ∧ (∀ q ∈ ([("a", "x"), ("b", "y")] : List (NodeId × NodeId)),
          q.2 ∈ collectEndpointNodes exG2K3)
      ∧ (∀ n ∈ collectEndpointNodes exG1K3, goodName n)
      ∧ (∀ n ∈ collectEndpointNodes exG2K3, goodName n))
    ∧ (exMergedC4.count_by_color NodeColor.Purple = exMergedC4.aligned_count
      ∧ exMergedC4.count_by_color NodeColor.Blue
          + exMergedC4.count_by_color NodeColor.Purple
          = exMergedC4.g1_node_count
      ∧ exMergedC4.count_by_color NodeColor.Red
          + exMergedC4.count_by_color NodeColor.Purple
          = exMergedC4.g2_node_count
      ∧ exMergedC4.edge_types.length = exMergedC4.network.links.length
      ∧ exMergedC4.merged_to_correct.isSome
          = (none : Option (List (NodeId × NodeId))).isSome) :=
  ⟨⟨by decide, by decide, by decide, by decide, by decide, by decide⟩,
    claim_merged_network_invariants exG1K3 exG2K3 exAlignC3 none exMergedC4
      (by decide) (by decide) (by decide) (by decide) (by decide) (by decide)
      (by rfl)⟩

theorem filter_length_split {α : Type} (l : List α) (p q : α → Bool) :
    (l.filter p).length
      = (l.filter (fun a => p a && q a)).length
        + (l.filter (fun a => p a && !(q a))).length := by
  induction l with
  | nil => rfl
  | cons a l ih =>
    simp only [List.filter_cons]
    cases hp : p a <;> cases hq : q a <;> simp [hp, hq] <;> omega

theorem degAfter_le_length (E : List Link) (P : List NodeId) (v : NodeId) :
    degAfter E P v ≤ E.length :=
  List.length_filter_le _ _

theorem degAfter_split (E : List Link) (P : List NodeId) (u v : NodeId)
    (hu : u ∉ P) :
    degAfter E P v = cnt_uv E u v + degAfter E (P ++ [u]) v := by
  unfold degAfter cnt_uv
  rw [filter_length_split E
    (fun l => l.target == v && !(decide (l.source ∈ P)))
    (fun l => l.source == u)]
  congr 1
  · apply congrArg List.length
    apply List.filter_congr
    intro l _
    cases hsu : l.source == u with
    | false => simp [hsu]
    | true =>
      have he : l.source = u := by simpa using hsu
      simp [hsu, he, hu]
  · apply congrArg List.length
    apply List.filter_congr
    intro l _
    have hmem : decide (l.source ∈ P ++ [u])
        = (decide (l.source ∈ P) || (l.source == u)) := by
      cases hsu : l.source == u with
      | true =>
        have he : l.source = u := by simpa using hsu
        simp [he, List.mem_append]
      | false =>
        have hne : ¬ l.source = u := by simpa using hsu
        simp [List.mem_append, hne]
    rw [hmem, Bool.not_or, Bool.and_assoc]

theorem cnt_le_degAfter (E : List Link) (P : List NodeId) (u v : NodeId)
    (hu : u ∉ P) : cnt_uv E u v ≤ degAfter E P v := by
  rw [degAfter_split E P u v hu]
  omega

theorem degAfter_zero_sources (E : List Link) (P : List NodeId) (v : NodeId)
    (h : degAfter E P v = 0) :
    ∀ l ∈ E, l.target = v → l.source ∈ P := by
  intro l hl ht
  by_contra hns
  have hmem : l ∈ E.filter
      (fun l => l.target == v && !(decide (l.source ∈ P))) := by
    rw [List.mem_filter]
    exact ⟨hl, by simp [ht, hns]⟩
  have hpos := List.length_pos_of_mem hmem
  unfold degAfter at h
  omega

theorem cnt_pos_exists (F : List Link) (u v : NodeId)
    (h : 0 < cnt_uv F u v) : ∃ l ∈ F, l.source = u ∧ l.target = v := by
  unfold cnt_uv at h
  obtain ⟨l, hl⟩ := List.exists_mem_of_length_pos h
  rw [List.mem_filter] at hl
  obtain ⟨h1, h2⟩ : l.source = u ∧ l.target = v := by simpa using hl.2
  exact ⟨l, hl.1, h1, h2⟩

theorem nodup_subset_length_le {α : Type} [DecidableEq α] (P V : List α)
    (hP : P.Nodup) (hsub : ∀ v ∈ P, v ∈ V) : P.length ≤ V.length := by
  have h1 : P.toFinset.card = P.length := List.toFinset_card_of_nodup hP
  have h2 : P.toFinset ⊆ V.toFinset := by
    intro x hx
    rw [List.mem_toFinset] at hx ⊢
    exact hsub x hx
  have h3 := Finset.card_le_card h2
  have h4 := V.toFinset_card_le
  omega

theorem wrap_dec_pred (n : Nat) (h0 : 0 < n) (hlt : n < usizeSize) :
    wrap_dec n = n - 1 := by
  unfold wrap_dec usizeSize
  unfold usizeSize at hlt
  have h64 : (2:Nat)^64 = 18446744073709551616 := by norm_num
  rw [h64]
  rw [h64] at hlt
  omega

theorem degAfter_nil_eq_indeg (E : List Link) (v : NodeId) :
    degAfter E [] v = indeg E v := by
  unfold degAfter indeg
  apply congrArg List.length
  apply List.filter_congr
  intro l _
  simp

theorem kahnStep_run (u : NodeId) :
    ∀ (F : List Link) (d : NodeId → Nat) (out : List NodeId),
      (∀ v, cnt_uv F u v ≤ d v) →
      (∀ v, d v < usizeSize) →
      (∀ v ∈ out, d v = 0 ∧ cnt_uv F u v = 0) →
      out.Nodup →
      (∀ v, (F.foldl (kahnEdgeStep u) (d, out)).1 v = d v - cnt_uv F u v)
      ∧ (∀ v, v ∈ (F.foldl (kahnEdgeStep u) (d, out)).2 ↔ v ∈ out
          ∨ (0 < cnt_uv F u v ∧ d v = cnt_uv F u v))
      ∧ (F.foldl (kahnEdgeStep u) (d, out)).2.Nodup := by
  intro F
  induction F with
  | nil =>
    intro d out _ _ _ hnd
    refine ⟨fun v => ?_, fun v => ?_, hnd⟩
    · show d v = d v - cnt_uv [] u v
      simp [cnt_uv]
    · show v ∈ out ↔ v ∈ out ∨ (0 < cnt_uv [] u v ∧ d v = cnt_uv [] u v)
      simp [cnt_uv]
  | cons l F ih =>
    intro d out hge hbig hout hnd
    rw [List.foldl_cons]
    cases hsu : l.source == u with
    | false =>
      have hstep : kahnEdgeStep u (d, out) l = (d, out) := by
        unfold kahnEdgeStep
        rw [if_neg (by simp [hsu])]
      have hcnt : ∀ v, cnt_uv (l :: F) u v = cnt_uv F u v := by
        intro v
        unfold cnt_uv
        rw [List.filter_cons, if_neg (by simp [hsu])]
      rw [hstep]
      obtain ⟨h1, h2, h3⟩ := ih d out
        (fun v => (hcnt v) ▸ hge v) hbig
        (fun v hv => ⟨(hout v hv).1, by
          have := (hout v hv).2
          rw [hcnt v] at this
          exact this⟩) hnd
      refine ⟨fun v => ?_, fun v => ?_, h3⟩
      · rw [hcnt v]
        exact h1 v
      · rw [hcnt v]
        exact h2 v
    | true =>
      have hsrceq : l.source = u := by simpa using hsu
      set t := l.target with ht
      have hcnt_t : cnt_uv (l :: F) u t = cnt_uv F u t + 1 := by
        unfold cnt_uv
        rw [List.filter_cons, if_pos (by simp [hsu, ht])]
        rw [List.length_cons]
      have hcnt_ne : ∀ v, v ≠ t → cnt_uv (l :: F) u v = cnt_uv F u v := by
        intro v hv
        unfold cnt_uv
        rw [List.filter_cons, if_neg ?hne]
        case hne =>
          simp only [hsu, Bool.true_and, beq_iff_eq]
          intro he
          exact hv (ht.trans he).symm
      have hdt_pos : 0 < d t :=
        lt_of_lt_of_le (by rw [hcnt_t]; omega) (hge t)
      have hwd : wrap_dec (d t) = d t - 1 := wrap_dec_pred (d t) hdt_pos (hbig t)
      have hstep : kahnEdgeStep u (d, out) l
          = (Function.update d t (d t - 1),
             out ++ if d t - 1 = 0 then [t] else []) := by
        show (if (l.source == u) = true then
            (Function.update d l.target (wrap_dec (d l.target)),
              out ++ if wrap_dec (d l.target) = 0 then [l.target] else [])
          else (d, out)) = _
        rw [if_pos hsu, ← ht, hwd]
      rw [hstep]
      have hd2t : Function.update d t (d t - 1) t = d t - 1 :=
        Function.update_same t _ d
      have hd2ne : ∀ v, v ≠ t → Function.update d t (d t - 1) v = d v :=
        fun v hv => Function.update_noteq hv _ d
      have hge2 : ∀ v, cnt_uv F u v ≤ Function.update d t (d t - 1) v := by
        intro v
        by_cases hv : v = t
        · subst hv
          rw [hd2t]
          have h1 := hge t
          rw [hcnt_t] at h1
          omega
        · rw [hd2ne v hv]
          have h1 := hge v
          rw [hcnt_ne v hv] at h1
          exact h1
      have hbig2 : ∀ v, Function.update d t (d t - 1) v < usizeSize := by
        intro v
        by_cases hv : v = t
        · subst hv
          rw [hd2t]
          have := hbig t
          omega
        · rw [hd2ne v hv]
          exact hbig v
      have hout2spec : ∀ v ∈ out ++ (if d t - 1 = 0 then [t] else []),
          Function.update d t (d t - 1) v = 0 ∧ cnt_uv F u v = 0 := by
        intro v hv
        rw [List.mem_append] at hv
        rcases hv with hvo | hvnew
        · obtain ⟨hz, hc⟩ := hout v hvo
          have hvt : v ≠ t := by
            intro he
            rw [he] at hz
            omega
          rw [hcnt_ne v hvt] at hc
          exact ⟨by rw [hd2ne v hvt]; exact hz, hc⟩
        · by_cases hz : d t - 1 = 0
          · rw [if_pos hz] at hvnew
            have hvt : v = t := by simpa using hvnew
            subst hvt
            refine ⟨by rw [hd2t]; exact hz, ?_⟩
            have h1 := hge2 t
            rw [hd2t] at h1
            omega
          · rw [if_neg hz] at hvnew
            exact absurd hvnew (List.not_mem_nil v)
      have hnd2 : (out ++ (if d t - 1 = 0 then [t] else [])).Nodup := by
        by_cases hz : d t - 1 = 0
        · rw [if_pos hz, List.nodup_append]
          refine ⟨hnd, List.nodup_singleton t, ?_⟩
          intro a ha hat
          have hat2 : a = t := by simpa using hat
          subst hat2
          obtain ⟨hz0, _⟩ := hout t ha
          omega
        · rw [if_neg hz]
          simpa using hnd
      obtain ⟨ih1, ih2, ih3⟩ :=
        ih (Function.update d t (d t - 1))
          (out ++ (if d t - 1 = 0 then [t] else []))
          hge2 hbig2 hout2spec hnd2
      refine ⟨?_, ?_, ih3⟩
      · intro v
        rw [ih1 v]
        by_cases hv : v = t
        · subst hv
          rw [hd2t, hcnt_t]
          have h1 := hge t
          rw [hcnt_t] at h1
          omega
        · rw [hd2ne v hv, hcnt_ne v hv]
      · intro v
        rw [ih2 v, List.mem_append]
        by_cases hv : v = t
        · subst hv
          have hto : t ∉ out := by
            intro h
            obtain ⟨hz0, _⟩ := hout t h
            omega
          have hgeF := hge2 t
          rw [hd2t] at hgeF
          rw [hcnt_t, hd2t]
          constructor
          · rintro ((ho | hnew) | hc)
            · exact absurd ho hto
            · by_cases hz : d t - 1 = 0
              · right
                exact ⟨by omega, by omega⟩
              · rw [if_neg hz] at hnew
                exact absurd hnew (List.not_mem_nil t)
            · right
              exact ⟨by omega, by omega⟩
          · rintro (ho | hc)
            · exact absurd ho hto
            · obtain ⟨_, hdt⟩ := hc
              by_cases hcF : 0 < cnt_uv F u t
              · right
                exact ⟨hcF, by omega⟩
              · left
                right
                have hz : d t - 1 = 0 := by omega
                rw [if_pos hz]
                exact List.mem_singleton.mpr rfl
        · have hnew : v ∉ (if d t - 1 = 0 then [t] else []) := by
            by_cases hz : d t - 1 = 0
            · rw [if_pos hz]
              simpa using hv
            · rw [if_neg hz]
              exact List.not_mem_nil v
          rw [hcnt_ne v hv, hd2ne v hv]
          constructor
          · rintro ((h | h) | hc)
            · exact Or.inl h
            · exact absurd h hnew
            · exact Or.inr hc
          · rintro (h | hc)
            · exact Or.inl (Or.inl h)
            · exact Or.inr hc

theorem consumable_mem_of_closed (E : List Link) (V P : List NodeId)
    (hsrc : ∀ l ∈ E, l.source ∈ V)
    (hzero : ∀ v ∈ V, degAfter E P v = 0 → v ∈ P) :
    ∀ v, Consumable E v → v ∈ V → v ∈ P := by
  intro v hcons
  induction hcons with
  | mk w hw ihw =>
    intro hwV
    apply hzero w hwV
    have hnone : ∀ l ∈ E,
        ¬((l.target == w && !(decide (l.source ∈ P))) = true) := by
      intro l hl hli
      obtain ⟨ht, hs⟩ : l.target = w ∧ ¬ l.source ∈ P := by simpa using hli
      exact hs (ihw l hl ht (hsrc l hl))
    unfold degAfter
    rw [List.filter_eq_nil_iff.mpr hnone]
    rfl

theorem kahnLoop_spec (E : List Link) (V : List NodeId)
    (hElen : E.length < usizeSize)
    (hsrc : ∀ l ∈ E, l.source ∈ V) (htgt : ∀ l ∈ E, l.target ∈ V) :
    ∀ (fuel : Nat) (Q P : List NodeId) (deg : NodeId → Nat),
      (∀ v ∈ P ++ Q, v ∈ V) →
      (P ++ Q).Nodup →
      (∀ v, deg v = degAfter E P v) →
      (∀ v ∈ V, (degAfter E P v = 0 ↔ v ∈ P ∨ v ∈ Q)) →
      (∀ v ∈ P, Consumable E v) →
      (V.length < fuel + P.length) →
      (∀ v ∈ kahnLoop E fuel Q deg, v ∈ V)
      ∧ (P ++ kahnLoop E fuel Q deg).Nodup
      ∧ (∀ v ∈ kahnLoop E fuel Q deg, Consumable E v)
      ∧ (∀ v ∈ V, Consumable E v → v ∈ P ∨ v ∈ kahnLoop E fuel Q deg) := by
  intro fuel
  induction fuel with
  | zero =>
    intro Q P deg hPQV hnd _ _ _ hfuel
    exfalso
    have hPnd : P.Nodup := (List.nodup_append.mp hnd).1
    have hPle : P.length ≤ V.length :=
      nodup_subset_length_le P V hPnd
        (fun v hv => hPQV v (List.mem_append_left Q hv))
    omega
  | succ fuel ih =>
    intro Q P deg hPQV hnd hdeg hzero hPcons hfuel
    cases Q with
    | nil =>
      have hgoal : kahnLoop E (fuel + 1) ([] : List NodeId) deg = [] := rfl
      rw [hgoal]
      refine ⟨fun v hv => absurd hv (List.not_mem_nil v), hnd,
        fun v hv => absurd hv (List.not_mem_nil v), ?_⟩
      intro v hv hcons
      left
      refine consumable_mem_of_closed E V P hsrc ?_ v hcons hv
      intro w hwV hw0
      rcases (hzero w hwV).mp hw0 with h | h
      · exact h
      · exact absurd h (List.not_mem_nil w)
    | cons u qs =>
      have hgoal : kahnLoop E (fuel + 1) (u :: qs) deg
          = u :: kahnLoop E fuel (qs ++ (kahnStep E u deg).2)
              (kahnStep E u deg).1 := rfl
      rw [hgoal]
      have huV : u ∈ V := hPQV u (List.mem_append_right P (List.mem_cons_self u qs))
      obtain ⟨hPnd, huqsnd, hPdisj⟩ := List.nodup_append.mp hnd
      have hunotP : u ∉ P := fun h => hPdisj h (List.mem_cons_self u qs)
      have hunotqs : u ∉ qs := (List.nodup_cons.mp huqsnd).1
      have hdeg0u : degAfter E P u = 0 :=
        (hzero u huV).mpr (Or.inr (List.mem_cons_self u qs))
      have hconsu : Consumable E u := by
        refine Consumable.mk u ?_
        intro l hl hlt
        exact hPcons l.source (degAfter_zero_sources E P u hdeg0u l hl hlt)
      have hge : ∀ v, cnt_uv E u v ≤ deg v := by
        intro v
        rw [hdeg v]
        exact cnt_le_degAfter E P u v hunotP
      have hbig : ∀ v, deg v < usizeSize := by
        intro v
        rw [hdeg v]
        exact lt_of_le_of_lt (degAfter_le_length E P v) hElen
      obtain ⟨hs1f, hs2memf, hs2ndf⟩ :=
        kahnStep_run u E deg [] hge hbig
          (fun v hv => absurd hv (List.not_mem_nil v)) List.nodup_nil
      have hs1 : ∀ v, (kahnStep E u deg).1 v = deg v - cnt_uv E u v := hs1f
      have hs2mem : ∀ v, v ∈ (kahnStep E u deg).2 ↔ v ∈ ([] : List NodeId)
          ∨ (0 < cnt_uv E u v ∧ deg v = cnt_uv E u v) := hs2memf
      have hs2nd : (kahnStep E u deg).2.Nodup := hs2ndf
      have hsplit : ∀ v, degAfter E P v
          = cnt_uv E u v + degAfter E (P ++ [u]) v :=
        fun v => degAfter_split E P u v hunotP
      have hs1' : ∀ v, (kahnStep E u deg).1 v = degAfter E (P ++ [u]) v := by
        intro v
        rw [hs1 v, hdeg v]
        have := hsplit v
        omega
      have hs2mem' : ∀ v, v ∈ (kahnStep E u deg).2
          ↔ (0 < cnt_uv E u v ∧ degAfter E (P ++ [u]) v = 0) := by
        intro v
        rw [hs2mem v]
        have := hsplit v
        have hd := hdeg v
        constructor
        · rintro (h | ⟨h1, h2⟩)
          · exact absurd h (List.not_mem_nil v)
          · exact ⟨h1, by omega⟩
        · rintro ⟨h1, h2⟩
          exact Or.inr ⟨h1, by omega⟩
      have hs2V : ∀ v ∈ (kahnStep E u deg).2, v ∈ V := by
        intro v hv
        obtain ⟨hc, _⟩ := (hs2mem' v).mp hv
        obtain ⟨l, hl, _, hlt⟩ := cnt_pos_exists E u v hc
        exact hlt ▸ htgt l hl
      have hs2fresh : ∀ v ∈ (kahnStep E u deg).2,
          v ∉ P ∧ v ≠ u ∧ v ∉ qs := by
        intro v hv
        obtain ⟨hc, _⟩ := (hs2mem' v).mp hv
        have hpos : degAfter E P v ≠ 0 := by
          have := hsplit v
          omega
        have hniff := hzero v (hs2V v hv)
        have hnot : ¬(v ∈ P ∨ v ∈ u :: qs) := fun h => hpos (hniff.mpr h)
        push_neg at hnot
        obtain ⟨h1, h2⟩ := hnot
        rw [List.mem_cons] at h2
        push_neg at h2
        exact ⟨h1, h2.1, h2.2⟩
      -- invariants for the tail call
      have inv1 : ∀ v ∈ (P ++ [u]) ++ (qs ++ (kahnStep E u deg).2), v ∈ V := by
        intro v hv
        rw [List.mem_append, List.mem_append, List.mem_append] at hv
        rcases hv with (h | h) | h | h
        · exact hPQV v (List.mem_append_left (u :: qs) h)
        · exact (by simpa using h : v = u) ▸ huV
        · exact hPQV v (List.mem_append_right P (List.mem_cons_of_mem u h))
        · exact hs2V v h
      have inv2 : ((P ++ [u]) ++ (qs ++ (kahnStep E u deg).2)).Nodup := by
        rw [← List.append_assoc]
        rw [List.nodup_append]
        refine ⟨?_, hs2nd, ?_⟩
        · -- ((P ++ [u]) ++ qs).Nodup = (P ++ u :: qs).Nodup
          rw [List.append_assoc]
          exact hnd
        · intro a ha hb
          obtain ⟨h1, h2, h3⟩ := hs2fresh a hb
          rw [List.append_assoc, List.mem_append] at ha
          rcases ha with h | h
          · exact h1 h
          · rcases List.mem_cons.mp (by simpa using h) with he | hq
            · exact h2 he
            · exact h3 hq
      have inv4 : ∀ v ∈ V, (degAfter E (P ++ [u]) v = 0
          ↔ v ∈ P ++ [u] ∨ v ∈ qs ++ (kahnStep E u deg).2) := by
        intro v hvV
        constructor
        · intro h0
          by_cases hP0 : degAfter E P v = 0
          · rcases (hzero v hvV).mp hP0 with h | h
            · exact Or.inl (List.mem_append_left [u] h)
            · rcases List.mem_cons.mp h with he | hq
              · exact Or.inl (List.mem_append_right P (he ▸ List.mem_singleton_self u))
              · exact Or.inr (List.mem_append_left _ hq)
          · right
            apply List.mem_append_right
            rw [hs2mem' v]
            have := hsplit v
            exact ⟨by omega, h0⟩
        · intro hmem
          have hle : degAfter E (P ++ [u]) v ≤ degAfter E P v := by
            have := hsplit v
            omega
          rcases hmem with h | h
          · rcases List.mem_append.mp h with h | h
            · have := (hzero v hvV).mpr (Or.inl h)
              omega
            · have he : v = u := by simpa using h
              rw [he]
              have := hdeg0u
              have := hsplit u
              omega
          · rcases List.mem_append.mp h with h | h
            · have := (hzero v hvV).mpr (Or.inr (List.mem_cons_of_mem u h))
              omega
            · exact ((hs2mem' v).mp h).2
      have inv5 : ∀ v ∈ P ++ [u], Consumable E v := by
        intro v hv
        rcases List.mem_append.mp hv with h | h
        · exact hPcons v h
        · exact (by simpa using h : v = u) ▸ hconsu
      have invfuel : V.length < fuel + (P ++ [u]).length := by
        rw [List.length_append, List.length_singleton]
        omega
      obtain ⟨ih1, ih2, ih3, ih4⟩ :=
        ih (qs ++ (kahnStep E u deg).2) (P ++ [u]) (kahnStep E u deg).1
          inv1 inv2 hs1' inv4 inv5 invfuel
      refine ⟨?_, ?_, ?_, ?_⟩
      · intro v hv
        rcases List.mem_cons.mp hv with he | h
        · exact he ▸ huV
        · exact ih1 v h
      · rw [List.append_assoc] at ih2
        exact ih2
      · intro v hv
        rcases List.mem_cons.mp hv with he | h
        · exact he ▸ hconsu
        · exact ih3 v h
      · intro v hvV hcons
        rcases ih4 v hvV hcons with h | h
        · rcases List.mem_append.mp h with h | h
          · exact Or.inl h
          · exact Or.inr (List.mem_cons.mpr (Or.inl (by simpa using h)))
        · exact Or.inr (List.mem_cons_of_mem u h)

theorem kahn_consumes_all_iff (net : Network)
    (hnd : net.node_ids.Nodup)
    (hsrc : ∀ l ∈ net.dir_edges, l.source ∈ net.node_ids)
    (htgt : ∀ l ∈ net.dir_edges, l.target ∈ net.node_ids)
    (hlen : net.dir_edges.length < usizeSize) :
    net.kahn_consumes_all = true
      ↔ ∀ v ∈ net.node_ids, Consumable net.dir_edges v := by
  have hpop : net.kahn_popped = kahnLoop net.dir_edges
      (net.nodes.length + net.links.length + 1)
      (net.node_ids.filter (fun v => indeg net.dir_edges v == 0))
      (indeg net.dir_edges) := rfl
  have hVlen : net.node_ids.length = net.nodes.length :=
    List.length_map net.nodes (fun n => n.id)
  have hseedsub : ∀ v ∈ ([] : List NodeId)
      ++ net.node_ids.filter (fun v => indeg net.dir_edges v == 0),
      v ∈ net.node_ids := by
    intro v hv
    rw [List.nil_append] at hv
    exact (List.mem_filter.mp hv).1
  have hseednd : (([] : List NodeId)
      ++ net.node_ids.filter (fun v => indeg net.dir_edges v == 0)).Nodup := by
    have := hnd.filter (fun v => indeg net.dir_edges v == 0)
    simpa using this
  have hdeg0 : ∀ v, indeg net.dir_edges v = degAfter net.dir_edges [] v :=
    fun v => (degAfter_nil_eq_indeg net.dir_edges v).symm
  have hzero0 : ∀ v ∈ net.node_ids, (degAfter net.dir_edges [] v = 0
      ↔ v ∈ ([] : List NodeId)
        ∨ v ∈ net.node_ids.filter (fun v => indeg net.dir_edges v == 0)) := by
    intro v hv
    rw [degAfter_nil_eq_indeg]
    constructor
    · intro h0
      right
      exact List.mem_filter.mpr ⟨hv, by simp [h0]⟩
    · rintro (h | h)
      · exact absurd h (List.not_mem_nil v)
      · have := (List.mem_filter.mp h).2
        simpa using this
  have hfuel0 : net.node_ids.length
      < (net.nodes.length + net.links.length + 1)
        + ([] : List NodeId).length := by
    rw [hVlen]
    simp only [List.length_nil]
    omega
  obtain ⟨hRV, hRnd, hRcons, hRcomp⟩ :=
    kahnLoop_spec net.dir_edges net.node_ids hlen hsrc htgt
      (net.nodes.length + net.links.length + 1)
      (net.node_ids.filter (fun v => indeg net.dir_edges v == 0))
      [] (indeg net.dir_edges)
      hseedsub hseednd hdeg0 hzero0
      (fun v hv => absurd hv (List.not_mem_nil v)) hfuel0
  rw [← hpop] at hRV hRnd hRcons hRcomp
  have hRnd2 : net.kahn_popped.Nodup := by simpa using hRnd
  have hcon_iff : net.kahn_consumes_all = true
      ↔ net.kahn_popped.length = net.nodes.length := by
    unfold Network.kahn_consumes_all
    exact beq_iff_eq
  rw [hcon_iff]
  constructor
  · intro hlen_eq v hvV
    have hsub : net.kahn_popped.toFinset ⊆ net.node_ids.toFinset := by
      intro x hx
      rw [List.mem_toFinset] at hx ⊢
      exact hRV x hx
    have hcards : net.node_ids.toFinset.card ≤ net.kahn_popped.toFinset.card := by
      rw [List.toFinset_card_of_nodup hRnd2, List.toFinset_card_of_nodup hnd]
      omega
    have hfeq := Finset.eq_of_subset_of_card_le hsub hcards
    have hvR : v ∈ net.kahn_popped := by
      have : v ∈ net.kahn_popped.toFinset := by
        rw [hfeq, List.mem_toFinset]
        exact hvV
      rwa [List.mem_toFinset] at this
    exact hRcons v hvR
  · intro hall
    have hVsub : ∀ v ∈ net.node_ids, v ∈ net.kahn_popped := by
      intro v hv
      rcases hRcomp v hv (hall v hv) with h | h
      · exact absurd h (List.not_mem_nil v)
      · exact h
    have hfeq : net.kahn_popped.toFinset = net.node_ids.toFinset := by
      apply Finset.Subset.antisymm
      · intro x hx
        rw [List.mem_toFinset] at hx ⊢
        exact hRV x hx
      · intro x hx
        rw [List.mem_toFinset] at hx ⊢
        exact hVsub x hx
    have := congrArg Finset.card hfeq
    rw [List.toFinset_card_of_nodup hRnd2, List.toFinset_card_of_nodup hnd]
      at this
    omega

/-- **C5** (corrected): the spec says `detect_dag` answers exactly whether
Kahn's algorithm over the directed non-shadow edges consumes every node,
depending only on that edge structure and the node set; but the code
first consults `metadata.is_directed` and answers `false` outright when
the flag is unset, even when the Kahn run would consume every node (see
the counterexample).  Amended, for well-formed networks (distinct node
ids, directed-edge endpoints among the nodes, fewer than `2^64` directed
edges): `detect_dag` returns `true` iff the metadata is flagged directed
**and** every node is consumable by Kahn's algorithm over the directed
non-shadow edges — where consumability is the declarative accessibility
characterization of the nodes a Kahn run pops. -/
theorem claim_detect_dag_kahn (net : Network)
    (hnd : net.node_ids.Nodup)
    (hsrc : ∀ l ∈ net.dir_edges, l.source ∈ net.node_ids)
    (htgt : ∀ l ∈ net.dir_edges, l.target ∈ net.node_ids)
    (hlen : net.dir_edges.length < usizeSize) :
    (net.detect_dag).2 = true
      ↔ (net.metadata.is_directed = true
          ∧ ∀ v ∈ net.node_ids, Consumable net.dir_edges v) := by
  unfold Network.detect_dag
  cases hd : net.metadata.is_directed with
  | false =>
    rw [if_pos (show (!false) = true from rfl)]
    simp
  | true =>
    rw [if_neg (show ¬(!true) = true by simp)]
    show net.kahn_consumes_all = true
      ↔ (true = true ∧ ∀ v ∈ net.node_ids, Consumable net.dir_edges v)
    rw [kahn_consumes_all_iff net hnd hsrc htgt hlen]
    constructor
    · intro h
      exact ⟨rfl, h⟩
    · intro h
      exact h.2

/-- **C5** counterexample to the unconditional claim: on a one-node,
link-free network whose metadata keeps the default `is_directed = false`,
the Kahn run consumes every node, yet `detect_dag` answers `false`. -/
theorem claim_detect_dag_kahn_cx :
    (exNetA.detect_dag).2 = false ∧ exNetA.kahn_consumes_all = true := by
  exact ⟨by decide, by decide⟩

/-- Witness for the amended C5 equivalence on the directed network
`A → B`. -/
theorem claim_detect_dag_kahn_witness :
    (exNetDagAB.node_ids.Nodup
      ∧ (∀ l ∈ exNetDagAB.dir_edges, l.source ∈ exNetDagAB.node_ids)
      ∧ (∀ l ∈ exNetDagAB.dir_edges, l.target ∈ exNetDagAB.node_ids)
      ∧ exNetDagAB.dir_edges.length < usizeSize)
    ∧ ((exNetDagAB.detect_dag).2 = true
        ↔ (exNetDagAB.metadata.is_directed = true
            ∧ ∀ v ∈ exNetDagAB.node_ids, Consumable exNetDagAB.dir_edges v)) :=
  ⟨⟨by decide, by decide, by decide, by decide⟩,
    claim_detect_dag_kahn exNetDagAB (by decide) (by decide) (by decide)
      (by decide)⟩

theorem foldl_omax_some (cs : List Nat) :
    ∀ m, cs.foldl omax (some m) = some (cs.foldl max m) := by
  induction cs with
  | nil => intro m; rfl
  | cons c cs ih =>
    intro m
    rw [List.foldl_cons, List.foldl_cons]
    exact ih (max m c)

theorem bumpOpt_foldl (cs : List Nat) :
    bumpOpt (cs.foldl omax none) = cs.foldl max 0 + 1 := by
  cases cs with
  | nil => rfl
  | cons c cs =>
    rw [List.foldl_cons, List.foldl_cons]
    have h1 : omax none c = some c := rfl
    rw [h1, foldl_omax_some cs c]
    have h2 : max 0 c = c := Nat.zero_max c
    rw [h2]
    rfl

theorem compressLink_ns (rr cr sr : Nat → Nat) (ll : LinkLayout) :
    (if (compressLink rr cr sr ll).is_shadow then none
      else (compressLink rr cr sr ll).column_no_shadows) = nsContrib cr ll := by
  show (if ll.is_shadow then none else nsContrib cr ll) = nsContrib cr ll
  by_cases h : ll.is_shadow = true
  · rw [if_pos h]
    unfold nsContrib
    rw [if_pos h]
  · rw [if_neg h]

theorem compressed_ns_stream (rr cr sr : Nat → Nat) (L : List LinkLayout) :
    (L.map (compressLink rr cr sr)).filterMap
      (fun ll => if ll.is_shadow then none else ll.column_no_shadows)
      = L.filterMap (nsContrib cr) := by
  rw [List.filterMap_map]
  have h : ((fun (ll : LinkLayout) =>
      if ll.is_shadow then none else ll.column_no_shadows)
        ∘ compressLink rr cr sr) = nsContrib cr :=
    funext (fun ll => compressLink_ns rr cr sr ll)
  rw [h]

theorem compressed_sh_stream (rr cr sr : Nat → Nat) (L : List LinkLayout) :
    (L.map (compressLink rr cr sr)).map (fun ll => ll.column)
      = L.map (fun ll => sr ll.column) := by
  rw [List.map_map]
  rfl

theorem buildNode_max_ns (cr sr rr : Nat → Nat) (mlc mslc : Nat)
    (nid : Option Nat) (links : List LinkLayout) (id : NodeId)
    (nl : NodeLayout) :
    (buildNode cr sr rr mlc mslc nid links id nl).max_col_no_shadows
      = if nl.has_edges_no_shadows then mlc else 0 := by
  unfold buildNode
  cases h1 : nl.has_edges_no_shadows <;> cases h2 : nl.has_edges <;>
    simp [h1, h2, NodeLayout.new]

theorem buildNode_min_ns (cr sr rr : Nat → Nat) (mlc mslc : Nat)
    (nid : Option Nat) (links : List LinkLayout) (id : NodeId)
    (nl : NodeLayout) :
    (buildNode cr sr rr mlc mslc nid links id nl).min_col_no_shadows
      = if nl.has_edges_no_shadows then cr nl.min_col_no_shadows
        else usizeMax := by
  unfold buildNode
  cases h1 : nl.has_edges_no_shadows <;> cases h2 : nl.has_edges <;>
    simp [h1, h2, NodeLayout.new]

theorem buildNode_max_sh (cr sr rr : Nat → Nat) (mlc mslc : Nat)
    (nid : Option Nat) (links : List LinkLayout) (id : NodeId)
    (nl : NodeLayout) :
    (buildNode cr sr rr mlc mslc nid links id nl).max_col
      = if nl.has_edges then mslc else 0 := by
  unfold buildNode
  cases h1 : nl.has_edges_no_shadows <;> cases h2 : nl.has_edges <;>
    simp [h1, h2, NodeLayout.new]

theorem buildNode_min_sh (cr sr rr : Nat → Nat) (mlc mslc : Nat)
    (nid : Option Nat) (links : List LinkLayout) (id : NodeId)
    (nl : NodeLayout) :
    (buildNode cr sr rr mlc mslc nid links id nl).min_col
      = if nl.has_edges then sr nl.min_col else usizeMax := by
  unfold buildNode
  cases h1 : nl.has_edges_no_shadows <;> cases h2 : nl.has_edges <;>
    simp [h1, h2, NodeLayout.new]

theorem usizeMax_pos : 0 < usizeMax := by
  unfold usizeMax usizeSize
  norm_num

/-- **C7** (corrected): the spec asserts that every extracted node with
incident links gets, as `max_col` and `max_col_no_shadows`, the **global
maximum** of the corresponding compressed column stream; the shared-value
part is true, but `result.rs:287-288` applies `map_or(1, |m| m + 1)`, so
the stored value is one **past** the maximum (and `1` for an empty
stream), as the counterexample shows.  Amended: after `extract_submodel`,
every node entry of the extracted layout that has incident links in a
display mode carries, as its rightmost column in that mode, the shared
value *(maximum of the compressed column stream) + 1* — with an empty
fold base of `0`, which also covers the empty-stream case `1`. -/
theorem claim_extract_submodel_max_cols (layout : NetworkLayout)
    (network : Network) (extract_set : List NodeId) :
    ∀ p ∈ ((layout.extract_submodel network extract_set).2).nodes,
      (p.2.has_edges_no_shadows = true →
        p.2.max_col_no_shadows
          = ((((layout.extract_submodel network extract_set).2).links.filterMap
              (fun ll => if ll.is_shadow then none
                else ll.column_no_shadows)).foldl max 0) + 1)
      ∧ (p.2.has_edges = true →
        p.2.max_col
          = ((((layout.extract_submodel network extract_set).2).links.map
              (fun ll => ll.column)).foldl max 0) + 1) := by
  intro p hp
  simp only [NetworkLayout.extract_submodel] at hp ⊢
  obtain ⟨q, hq, rfl⟩ := List.mem_map.mp hp
  dsimp only
  rw [compressed_ns_stream, compressed_sh_stream]
  constructor
  · intro hg
    by_cases hfull : q.2.has_edges_no_shadows = true
    · rw [buildNode_max_ns, if_pos hfull]
      exact bumpOpt_foldl _
    · exfalso
      unfold NodeLayout.has_edges_no_shadows at hg
      rw [buildNode_min_ns, buildNode_max_ns, if_neg hfull, if_neg hfull]
        at hg
      rw [decide_eq_true_eq] at hg
      have := usizeMax_pos
      omega
  · intro hg
    by_cases hfull : q.2.has_edges = true
    · rw [buildNode_max_sh, if_pos hfull]
      exact bumpOpt_foldl _
    · exfalso
      unfold NodeLayout.has_edges at hg
      rw [buildNode_min_sh, buildNode_max_sh, if_neg hfull, if_neg hfull]
        at hg
      rw [decide_eq_true_eq] at hg
      have := usizeMax_pos
      omega

/-- **C7** counterexample to the "equals the global maximum" part: in the
two-node, one-link scenario the compressed column streams peak at `0` in
both modes, yet every extracted node's rightmost columns are `1`. -/
theorem claim_extract_submodel_max_cols_cx :
    ((((exLayoutC7.extract_submodel exNetC7 ["A", "B"]).2).nodes.map
        (fun p => (p.2.max_col, p.2.max_col_no_shadows)))
      = [(1, 1), (1, 1)])
    ∧ ((((exLayoutC7.extract_submodel exNetC7 ["A", "B"]).2).links.map
        (fun ll => ll.column)).foldl max 0 = 0)
    ∧ ((((exLayoutC7.extract_submodel exNetC7 ["A", "B"]).2).links.filterMap
        (fun ll => if ll.is_shadow then none
          else ll.column_no_shadows)).foldl max 0 = 0)
    ∧ (1 : Nat) ≠ 0 := by
  exact ⟨by decide, by decide, by decide, by decide⟩

/-- Witness for the amended C7 property at the first extracted node of the
two-node scenario. -/
theorem claim_extract_submodel_max_cols_witness :
    (exSubNodeC7 ∈ ((exLayoutC7.extract_submodel exNetC7 ["A", "B"]).2).nodes
      ∧ exSubNodeC7.2.has_edges_no_shadows = true
      ∧ exSubNodeC7.2.has_edges = true)
    ∧ (exSubNodeC7.2.max_col_no_shadows
        = ((((exLayoutC7.extract_submodel exNetC7 ["A", "B"]).2).links.filterMap
            (fun ll => if ll.is_shadow then none
              else ll.column_no_shadows)).foldl max 0) + 1
      ∧ exSubNodeC7.2.max_col
        = ((((exLayoutC7.extract_submodel exNetC7 ["A", "B"]).2).links.map
            (fun ll => ll.column)).foldl max 0) + 1) :=
  ⟨⟨by decide, by decide, by decide⟩,
    ⟨(claim_extract_submodel_max_cols exLayoutC7 exNetC7 ["A", "B"]
        exSubNodeC7 (by decide)).1 (by decide),
      (claim_extract_submodel_max_cols exLayoutC7 exNetC7 ["A", "B"]
        exSubNodeC7 (by decide)).2 (by decide)⟩⟩

end BioFabric
